import Mathlib

/-!
Verification of the Herold family-tree SVG layout engine.

Shallow embedding of the layout subsystem:
- data model from src/shared/types/FamilyMember.ts and FamilyProject.ts
- LayoutEngine from src/server/services/svg/LayoutEngine.ts
- SVGGenerator from src/server/services/svg/SVGGenerator.ts
- SVGRenderingService from src/server/services/svg/SVGRenderingService.ts
- the GET /:id/tree/svg route from src/server/routes/svg.ts

Modelling conventions:
- JavaScript numbers are modelled as `ℚ`.  All arithmetic performed by the
  layout engine on the configuration values used in this repository
  (integer spacings and margins, halvings, and the two orientation products
  `x * 0.8` / `x * 1.2`, which round to the exact real product for every
  spacing preset value) is exact in IEEE doubles, so `ℚ` matches the source.
- A JS `Record<string, T>` (object) is modelled as the list of its values in
  key-insertion order; object keys are unique and every construction site of
  `project.members` stores each member under its own `id`, so lookup by key
  is `List.find?` on the `id` field.
- A JS `Map` built by repeated `set` is looked up with last-write-wins
  semantics, hence `List.find?` on the reversed insertion list.
- JS string comparison (`Array.prototype.sort` default comparator) is
  lexicographic on code units; for the strings at issue this is `lexLt`
  below on the code points.
- Number-to-string conversion used by string interpolation in the SVG
  serializer is kept abstract as a parameter `numToStr : ℚ → String`.
- `Date.now()` wall-clock render time is outside the embedding; the render
  metadata is modelled without the `renderTime` field.
-/

namespace Herold

/-! ## Generic helpers -/

/-- Lexicographic comparison of character lists by code point, the order
used by the JS default sort comparator on the (ASCII) id strings here. -/
def lexLt : List Char → List Char → Bool
  | [], [] => false
  | [], _ :: _ => true
  | _ :: _, [] => false
  | a :: as, b :: bs =>
    if a.toNat < b.toNat then true
    else if b.toNat < a.toNat then false
    else lexLt as bs

/-- `Array.prototype.join(sep)`. -/
def joinSep (sep : String) : List String → String
  | [] => ""
  | [s] => s
  | s :: rest => s ++ sep ++ joinSep sep rest

/-! ## Data model (src/shared/types/FamilyMember.ts) -/

inductive Gender where
  | man
  | kvinna
  | other
deriving DecidableEq

inductive PersonStatus where
  | levande
  | dod
  | okand
deriving DecidableEq

/-- Core family member record.  The optional fields (dates, cultural tag,
titles, locations) are never read by the layout subsystem and are omitted. -/
structure FamilyMember where
  id : String
  namn : String
  kon : Gender
  generation : ℚ
  foraldrar : List String
  barn : List String
  partner : Option String
  status : PersonStatus
  anteckningar : String
deriving DecidableEq

/-! ## Data model (src/shared/types/FamilyProject.ts), the parts read by the
rendering subsystem -/

structure FontSizeConfig where
  title : ℚ
  names : ℚ
  relationships : ℚ
deriving DecidableEq

structure FontConfig where
  family : String
  fallbacks : List String
  size : Option FontSizeConfig
deriving DecidableEq

inductive Orientation where
  | portrait
  | landscape
deriving DecidableEq

inductive SpacingPreset where
  | tight
  | comfortable
  | spacious
deriving DecidableEq

structure ThemeColors where
  background : String
  text : String
  lines : String
  accent : String
deriving DecidableEq

structure ThemeDecorations where
  showBorder : Bool
  showCornerDecorations : Bool
  showShadows : Bool
deriving DecidableEq

structure ThemeConfig where
  name : String
  colors : ThemeColors
  decorations : ThemeDecorations
deriving DecidableEq

structure ProjectLayoutSettings where
  algorithm : String
  spacing : SpacingPreset
  showGenerationLabels : Bool
  showMarriageSymbols : Bool
  centerMainPerson : Bool
deriving DecidableEq

structure ProjectSettings where
  font : FontConfig
  orientation : Orientation
  theme : ThemeConfig
  layout : ProjectLayoutSettings
deriving DecidableEq

/-- Project snapshot, restricted to the fields the rendering subsystem reads.
`members` is the value list of the `Record<string, FamilyMember>` in key
insertion order (`Object.values`). -/
structure FamilyProject where
  id : String
  name : String
  description : String
  mainPersonId : String
  members : List FamilyMember
  settings : ProjectSettings
deriving DecidableEq

/-- `project.members[id]` object-key lookup. -/
def memberGet (members : List FamilyMember) (id : String) : Option FamilyMember :=
  members.find? (fun m => m.id = id)

/-! ## Layout types (src/server/services/svg/LayoutTypes.ts) -/

structure LayoutConfig where
  generationSpacing : ℚ
  personSpacing : ℚ
  marriageSpacing : ℚ
  fontSize : ℚ
  fontFamily : String
  marginTop : ℚ
  marginBottom : ℚ
  marginLeft : ℚ
  marginRight : ℚ
  titleHeight : ℚ
  lineColor : String
  lineWidth : ℚ
deriving DecidableEq

/-- `Partial<LayoutConfig>`: every field optional. -/
structure LayoutOverrides where
  generationSpacing : Option ℚ := none
  personSpacing : Option ℚ := none
  marriageSpacing : Option ℚ := none
  fontSize : Option ℚ := none
  fontFamily : Option String := none
  marginTop : Option ℚ := none
  marginBottom : Option ℚ := none
  marginLeft : Option ℚ := none
  marginRight : Option ℚ := none
  titleHeight : Option ℚ := none
  lineColor : Option String := none
  lineWidth : Option ℚ := none
deriving DecidableEq

/-- Object spread `{ ...base, ...o }` with a total base. -/
def applyOverrides (base : LayoutConfig) (o : LayoutOverrides) : LayoutConfig where
  generationSpacing := o.generationSpacing.getD base.generationSpacing
  personSpacing := o.personSpacing.getD base.personSpacing
  marriageSpacing := o.marriageSpacing.getD base.marriageSpacing
  fontSize := o.fontSize.getD base.fontSize
  fontFamily := o.fontFamily.getD base.fontFamily
  marginTop := o.marginTop.getD base.marginTop
  marginBottom := o.marginBottom.getD base.marginBottom
  marginLeft := o.marginLeft.getD base.marginLeft
  marginRight := o.marginRight.getD base.marginRight
  titleHeight := o.titleHeight.getD base.titleHeight
  lineColor := o.lineColor.getD base.lineColor
  lineWidth := o.lineWidth.getD base.lineWidth

/-- Object spread `{ ...a, ...b }` of two partial configs: fields present in
`b` win. -/
def mergeOverrides (a b : LayoutOverrides) : LayoutOverrides where
  generationSpacing := b.generationSpacing.orElse fun _ => a.generationSpacing
  personSpacing := b.personSpacing.orElse fun _ => a.personSpacing
  marriageSpacing := b.marriageSpacing.orElse fun _ => a.marriageSpacing
  fontSize := b.fontSize.orElse fun _ => a.fontSize
  fontFamily := b.fontFamily.orElse fun _ => a.fontFamily
  marginTop := b.marginTop.orElse fun _ => a.marginTop
  marginBottom := b.marginBottom.orElse fun _ => a.marginBottom
  marginLeft := b.marginLeft.orElse fun _ => a.marginLeft
  marginRight := b.marginRight.orElse fun _ => a.marginRight
  titleHeight := b.titleHeight.orElse fun _ => a.titleHeight
  lineColor := b.lineColor.orElse fun _ => a.lineColor
  lineWidth := b.lineWidth.orElse fun _ => a.lineWidth

/-- The defaults installed by the `LayoutEngine` (and `SVGGenerator`)
constructor. -/
def defaultLayoutConfig : LayoutConfig where
  generationSpacing := 80
  personSpacing := 120
  marriageSpacing := 40
  fontSize := 16
  fontFamily := "Dancing Script"
  marginTop := 100
  marginBottom := 50
  marginLeft := 50
  marginRight := 50
  titleHeight := 90
  lineColor := "#8b7355"
  lineWidth := 1

/-- `new LayoutEngine(config?)`: defaults spread-updated with the partial
argument. -/
def engineConfig (o : LayoutOverrides) : LayoutConfig :=
  applyOverrides defaultLayoutConfig o

structure PersonLayout where
  x : ℚ
  y : ℚ
  member : FamilyMember
  textWidth : ℚ
deriving DecidableEq

inductive ConnectionType where
  | parentChild
  | marriage
  | sibling
deriving DecidableEq

structure ConnectionLine where
  x1 : ℚ
  y1 : ℚ
  x2 : ℚ
  y2 : ℚ
  type : ConnectionType
deriving DecidableEq

structure MarriageConnection where
  person1 : PersonLayout
  person2 : PersonLayout
  symbolX : ℚ
  symbolY : ℚ
deriving DecidableEq

structure GenerationGroup where
  generation : ℚ
  members : List FamilyMember
  yPosition : ℚ
  leftmostX : ℚ
  rightmostX : ℚ
deriving DecidableEq

/-- Family cluster.  The source record also carries a `marriages` array that
is initialised empty and never filled or read; it is omitted. -/
structure FamilyGroup where
  id : String
  members : List FamilyMember
  centerX : ℚ
  generation : ℚ
deriving DecidableEq

structure Dimensions where
  width : ℚ
  height : ℚ
deriving DecidableEq

structure LayoutResult where
  people : List PersonLayout
  connections : List ConnectionLine
  marriages : List MarriageConnection
  dimensions : Dimensions
  generations : List GenerationGroup
deriving DecidableEq

/-! ## LayoutEngine (src/server/services/svg/LayoutEngine.ts) -/

/-- `estimateTextWidth`: `text.length * avgCharWidth` with
`avgCharWidth = 8`.  Note that the source reads no configuration here; in
particular the configured font size is not consulted. -/
def estimateTextWidth (text : String) : ℚ :=
  (text.length : ℚ) * 8

/-- JS truthiness of the `partner : string | null` field: `null` and the
empty string are falsy. -/
def partnerTruthy : Option String → Bool
  | none => false
  | some s => !(s = "")

/-- Key-insertion order of a JS `Map` keyed by generation value. -/
def generationKeys (members : List FamilyMember) : List ℚ :=
  members.foldl (fun ks m => if m.generation ∈ ks then ks else ks ++ [m.generation]) []

/-- `groupByGeneration`: bucket members by exact generation value, order the
buckets ascending by that value, and assign each band its y coordinate. -/
def groupByGeneration (cfg : LayoutConfig) (members : List FamilyMember) :
    List GenerationGroup :=
  let sortedGens := List.insertionSort (· ≤ ·) (generationKeys members)
  sortedGens.enum.map fun p =>
    { generation := p.2
      members := members.filter (fun m => m.generation = p.2)
      yPosition := cfg.titleHeight + cfg.marginTop + (p.1 : ℚ) * cfg.generationSpacing
      leftmostX := 0
      rightmostX := 0 }

/-- One step of `identifyFamilyGroups`: collect the unclaimed spouse. -/
def claimSpouse (members : List FamilyMember) (m : FamilyMember)
    (processed : List String) : List FamilyMember × List String :=
  match m.partner with
  | some pid =>
    if pid = "" then ([], processed)
    else
      match members.find? (fun mm => mm.id = pid) with
      | some spouse =>
        if spouse.id ∈ processed then ([], processed)
        else ([spouse], processed ++ [spouse.id])
      | none => ([], processed)
  | none => ([], processed)

/-- One step of `identifyFamilyGroups`: collect the unclaimed children. -/
def claimChildren (members : List FamilyMember) (m : FamilyMember)
    (processed : List String) : List FamilyMember × List String :=
  m.barn.foldl
    (fun acc childId =>
      match members.find? (fun mm => mm.id = childId) with
      | some child =>
        if child.id ∈ acc.2 then acc
        else (acc.1 ++ [child], acc.2 ++ [child.id])
      | none => acc)
    ([], processed)

/-- `identifyFamilyGroups`, iterating members with a claimed set. -/
def identifyFamilyGroupsAux (members : List FamilyMember) :
    List FamilyMember → List String → List FamilyGroup
  | [], _ => []
  | m :: rest, processed =>
    if m.id ∈ processed then identifyFamilyGroupsAux members rest processed
    else
      let processed1 := processed ++ [m.id]
      let spouseStep := claimSpouse members m processed1
      let childStep := claimChildren members m spouseStep.2
      { id := m.id
        members := [m] ++ spouseStep.1 ++ childStep.1
        centerX := 0
        generation := m.generation } ::
        identifyFamilyGroupsAux members rest childStep.2

def identifyFamilyGroups (members : List FamilyMember) : List FamilyGroup :=
  identifyFamilyGroupsAux members members []

/-- `calculateTotalWidthForGeneration`: label widths plus pairwise spacing,
with the marriage gap between adjacent recorded partners. -/
def calculateTotalWidthForGeneration (cfg : LayoutConfig) :
    List FamilyMember → ℚ
  | [] => 0
  | [m] => estimateTextWidth m.namn
  | m :: next :: rest =>
    estimateTextWidth m.namn +
      (if m.partner = some next.id ∨ next.partner = some m.id
        then cfg.marriageSpacing else cfg.personSpacing) +
      calculateTotalWidthForGeneration cfg (next :: rest)

/-- The member loop of `calculatePersonPositions` for one band: place a
person at `cursor + textWidth / 2`, advance by `textWidth + personSpacing`,
then take back `personSpacing - marriageSpacing` when the person has a
(truthy) recorded partner found anywhere in the band.  Returns the layouts
and the final cursor. -/
def placeBand (cfg : LayoutConfig) (band : List FamilyMember) (yPos : ℚ) :
    List FamilyMember → ℚ → List PersonLayout × ℚ
  | [], currentX => ([], currentX)
  | m :: rest, currentX =>
    let textWidth := estimateTextWidth m.namn
    let layout : PersonLayout :=
      { x := currentX + textWidth / 2, y := yPos, member := m, textWidth := textWidth }
    let advanced := currentX + textWidth + cfg.personSpacing
    let nextX :=
      if partnerTruthy m.partner ∧
          (band.find? (fun mm => some mm.id = m.partner)).isSome
      then advanced - (cfg.personSpacing - cfg.marriageSpacing)
      else advanced
    let tail := placeBand cfg band yPos rest nextX
    (layout :: tail.1, tail.2)

/-- `calculatePersonPositions`: bands processed independently; the cursor
starts at `marginLeft + max 0 ((400 - totalWidth) / 2)` (centering each band
against an assumed 400px base width).  Returns all layouts plus the bands
with their recorded bounds, mirroring the in-place mutation of
`leftmostX` / `rightmostX`.  The `familyGroups` parameter is accepted and
ignored exactly as in the source body. -/
def calculatePersonPositions (cfg : LayoutConfig)
    (generations : List GenerationGroup) (_familyGroups : List FamilyGroup) :
    List PersonLayout × List GenerationGroup :=
  let results := generations.map fun generation =>
    let genMembers := generation.members
    let totalWidth := calculateTotalWidthForGeneration cfg genMembers
    let startX := cfg.marginLeft + max 0 ((400 - totalWidth) / 2)
    let placed := placeBand cfg genMembers generation.yPosition genMembers startX
    (placed.1,
      { generation with leftmostX := cfg.marginLeft, rightmostX := placed.2 })
  ((results.map Prod.fst).flatten, results.map Prod.snd)

/-- Lookup in the `Map` from member id to layout (`layoutMap.set` in a loop:
last write wins). -/
def layoutMapGet (personLayouts : List PersonLayout) (id : String) :
    Option PersonLayout :=
  personLayouts.reverse.find? (fun l => l.member.id = id)

/-- `generateConnections`: one parent-child line per recorded parent id of
each placed member whose parent is also placed. -/
def generateConnections (personLayouts : List PersonLayout)
    (members : List FamilyMember) : List ConnectionLine :=
  members.flatMap fun member =>
    match layoutMapGet personLayouts member.id with
    | none => []
    | some childLayout =>
      member.foraldrar.filterMap fun parentId =>
        match layoutMapGet personLayouts parentId with
        | none => none
        | some parentLayout =>
          some { x1 := parentLayout.x
                 y1 := parentLayout.y + 10
                 x2 := childLayout.x
                 y2 := childLayout.y - 10
                 type := ConnectionType.parentChild }

/-- The canonical marriage pair key `[a, b].sort().join('-')`. -/
def pairKey (a b : String) : String :=
  if lexLt b.data a.data then b ++ "-" ++ a else a ++ "-" ++ b

/-- `generateMarriages` member loop, threading the processed pair-key set.
The key is recorded before the layout lookups, as in the source. -/
def generateMarriagesAux (personLayouts : List PersonLayout) :
    List FamilyMember → List String → List MarriageConnection
  | [], _ => []
  | m :: rest, processedPairs =>
    match m.partner with
    | none => generateMarriagesAux personLayouts rest processedPairs
    | some partnerId =>
      if partnerId = "" then generateMarriagesAux personLayouts rest processedPairs
      else
        let key := pairKey m.id partnerId
        if key ∈ processedPairs then
          generateMarriagesAux personLayouts rest processedPairs
        else
          let processed' := key :: processedPairs
          match layoutMapGet personLayouts m.id,
              layoutMapGet personLayouts partnerId with
          | some person1Layout, some person2Layout =>
            { person1 := person1Layout
              person2 := person2Layout
              symbolX := (person1Layout.x + person2Layout.x) / 2
              symbolY := (person1Layout.y + person2Layout.y) / 2 } ::
              generateMarriagesAux personLayouts rest processed'
          | _, _ => generateMarriagesAux personLayouts rest processed'

def generateMarriages (personLayouts : List PersonLayout)
    (members : List FamilyMember) : List MarriageConnection :=
  generateMarriagesAux personLayouts members []

/-- `calculateDimensions`: A4 default when empty, else the bounding box of
all placements expanded by margins and title height, clamped up to the
A4 minimum. -/
def calculateDimensions (cfg : LayoutConfig)
    (personLayouts : List PersonLayout) : Dimensions :=
  match personLayouts with
  | [] => { width := 595, height := 842 }
  | p :: ps =>
    let minX := ps.foldl (fun acc q => min acc (q.x - q.textWidth / 2))
      (p.x - p.textWidth / 2)
    let maxX := ps.foldl (fun acc q => max acc (q.x + q.textWidth / 2))
      (p.x + p.textWidth / 2)
    let minY := ps.foldl (fun acc q => min acc q.y) p.y
    let maxY := ps.foldl (fun acc q => max acc q.y) p.y
    { width := max 595 (maxX - minX + cfg.marginLeft + cfg.marginRight)
      height := max 842
        (maxY - minY + cfg.marginTop + cfg.marginBottom + cfg.titleHeight) }

/-- `generateLayout`: the full pipeline. -/
def generateLayout (cfg : LayoutConfig) (project : FamilyProject) : LayoutResult :=
  let members := project.members
  let generations := groupByGeneration cfg members
  let familyGroups := identifyFamilyGroups members
  let positioned := calculatePersonPositions cfg generations familyGroups
  let personLayouts := positioned.1
  let connections := generateConnections personLayouts members
  let marriages := generateMarriages personLayouts members
  let dimensions := calculateDimensions cfg personLayouts
  { people := personLayouts
    connections := connections
    marriages := marriages
    dimensions := dimensions
    generations := positioned.2 }

/-! ## SVGGenerator (src/server/services/svg/SVGGenerator.ts) -/

/-- Global single-character regex replacement `s.replace(/c/g, rep)`. -/
def replaceChar (c : Char) (rep : String) (s : String) : String :=
  ⟨s.data.flatMap fun d => if d = c then rep.data else [d]⟩

/-- `escapeXML`: chained global replacement of the five reserved markup
characters, ampersand first. -/
def escapeXML (text : String) : String :=
  replaceChar '\'' "&#x27;"
    (replaceChar '"' "&quot;"
      (replaceChar '>' "&gt;"
        (replaceChar '<' "&lt;"
          (replaceChar '&' "&amp;" text))))

/-- `generateCornerDecorations`. -/
def generateCornerDecorations : String :=
  "    <!-- Corner decorations -->\n    <g id=\"corner-decoration\">\n      <circle cx=\"0\" cy=\"0\" r=\"3\" fill=\"#8b7355\"/>\n      <circle cx=\"6\" cy=\"0\" r=\"2\" fill=\"#d4c4a8\"/>\n      <circle cx=\"0\" cy=\"6\" r=\"2\" fill=\"#d4c4a8\"/>\n    </g>"

/-- `generateDefs` (braces of the embedded CSS written as \x7b/\x7d). -/
def generateDefs (project : FamilyProject) : String :=
  let theme := project.settings.theme
  "  <defs>\n    <!-- Font styles -->\n    <style>\n      .family-tree-font \x7b\n        font-family: '" ++
    project.settings.font.family ++ "', " ++
    joinSep ", " (project.settings.font.fallbacks.map fun f => "'" ++ f ++ "'") ++
    ";\n      \x7d\n    </style>\n\n    <!-- Parchment background gradient -->\n    <radialGradient id=\"parchment\" cx=\"50%\" cy=\"50%\" r=\"70%\">\n      <stop offset=\"0%\" style=\"stop-color:" ++
    theme.colors.background ++
    "\"/>\n      <stop offset=\"100%\" style=\"stop-color:#e8e0d0\"/>\n    </radialGradient>\n\n    <!-- Text shadow filter -->\n    <filter id=\"textShadow\" x=\"-20%\" y=\"-20%\" width=\"140%\" height=\"140%\">\n      <feDropShadow dx=\"1\" dy=\"1\" stdDeviation=\"0.5\"\n                   flood-color=\"" ++
    theme.colors.lines ++
    "\"\n                   flood-opacity=\"0.3\"/>\n    </filter>\n\n    <!-- Border decorations -->\n    " ++
    (if theme.decorations.showCornerDecorations then generateCornerDecorations else "") ++
    "\n  </defs>"

/-- `generateBackground`. -/
def generateBackground (numToStr : ℚ → String) (width height : ℚ) : String :=
  "  <!-- Parchment background -->\n  <rect width=\"" ++ numToStr width ++
    "\" height=\"" ++ numToStr height ++
    "\" fill=\"url(#parchment)\" stroke=\"#d4c4a8\" stroke-width=\"3\"/>\n\n  <!-- Decorative frame -->\n  <rect x=\"20\" y=\"20\" width=\"" ++
    numToStr (width - 40) ++ "\" height=\"" ++ numToStr (height - 40) ++
    "\"\n        fill=\"none\" stroke=\"#8b7355\" stroke-width=\"2\" stroke-dasharray=\"5,3\"/>"

/-- JS `x || d` for numbers: `0` is falsy. -/
def numOrDefault (x d : ℚ) : ℚ :=
  if x = 0 then d else x

/-- `generateTitle`. -/
def generateTitle (numToStr : ℚ → String) (project : FamilyProject)
    (width : ℚ) : String :=
  let centerX := width / 2
  let titleSize :=
    match project.settings.font.size with
    | some s => numOrDefault s.title 32
    | none => 32
  let subtitleSize : ℚ := 18
  "  <!-- Title -->\n  <text x=\"" ++ numToStr centerX ++
    "\" y=\"60\" text-anchor=\"middle\"\n        class=\"family-tree-font\"\n        font-size=\"" ++
    numToStr titleSize ++
    "\" font-weight=\"bold\"\n        fill=\"" ++
    project.settings.theme.colors.text ++
    "\"\n        filter=\"url(#textShadow)\">\n    " ++
    escapeXML project.name ++
    "\n  </text>\n  <text x=\"" ++ numToStr centerX ++
    "\" y=\"85\" text-anchor=\"middle\"\n        class=\"family-tree-font\"\n        font-size=\"" ++
    numToStr subtitleSize ++
    "\"\n        fill=\"" ++
    project.settings.theme.colors.lines ++
    "\">\n    Släktträd\n  </text>"

/-- The horizontal-segment height of the L-shaped parent-child path in
`SVGGenerator.generateConnections`. -/
def connectionMidY (conn : ConnectionLine) : ℚ :=
  (conn.y1 + conn.y2) / 2

/-- One connection element of `SVGGenerator.generateConnections`. -/
def connectionElement (cfg : LayoutConfig) (numToStr : ℚ → String)
    (conn : ConnectionLine) : String :=
  if conn.type = ConnectionType.parentChild then
    "    <!-- Parent-child connection -->\n    <path d=\"M " ++
      numToStr conn.x1 ++ " " ++ numToStr conn.y1 ++ " L " ++
      numToStr conn.x1 ++ " " ++ numToStr (connectionMidY conn) ++ " L " ++
      numToStr conn.x2 ++ " " ++ numToStr (connectionMidY conn) ++ " L " ++
      numToStr conn.x2 ++ " " ++ numToStr conn.y2 ++
      "\"\n          stroke=\"" ++ cfg.lineColor ++
      "\"\n          stroke-width=\"" ++ numToStr cfg.lineWidth ++
      "\"\n          fill=\"none\"/>"
  else
    "    <line x1=\"" ++ numToStr conn.x1 ++ "\" y1=\"" ++ numToStr conn.y1 ++
      "\" x2=\"" ++ numToStr conn.x2 ++ "\" y2=\"" ++ numToStr conn.y2 ++
      "\"\n                stroke=\"" ++ cfg.lineColor ++
      "\"\n                stroke-width=\"" ++ numToStr cfg.lineWidth ++ "\"/>"

/-- `SVGGenerator.generateConnections`. -/
def generateConnectionsSVG (cfg : LayoutConfig) (numToStr : ℚ → String)
    (connections : List ConnectionLine) : String :=
  if connections = [] then ""
  else
    "  <!-- Family connections -->\n" ++
      joinSep "\n" (connections.map (connectionElement cfg numToStr))

/-- One marriage element (line plus union symbol). -/
def marriageElement (cfg : LayoutConfig) (numToStr : ℚ → String)
    (marriage : MarriageConnection) : String :=
  "    <line x1=\"" ++ numToStr marriage.person1.x ++ "\" y1=\"" ++
    numToStr marriage.person1.y ++ "\"\n                         x2=\"" ++
    numToStr marriage.person2.x ++ "\" y2=\"" ++
    numToStr marriage.person2.y ++ "\"\n                         stroke=\"" ++
    cfg.lineColor ++ "\"\n                         stroke-width=\"" ++
    numToStr cfg.lineWidth ++ "\"/>\n    <text x=\"" ++
    numToStr marriage.symbolX ++ "\" y=\"" ++
    numToStr (marriage.symbolY + 6) ++
    "\"\n                           text-anchor=\"middle\"\n                           class=\"family-tree-font\"\n                           font-size=\"14\"\n                           fill=\"" ++
    cfg.lineColor ++ "\">⚭</text>"

/-- `SVGGenerator.generateMarriages`. -/
def generateMarriagesSVG (cfg : LayoutConfig) (numToStr : ℚ → String)
    (marriages : List MarriageConnection) : String :=
  if marriages = [] then ""
  else
    "  <!-- Marriage connections -->\n" ++
      joinSep "\n" (marriages.map (marriageElement cfg numToStr))

/-- Everything of a person's `<text>` element before the escaped name. -/
def personElementPrefix (cfg : LayoutConfig) (numToStr : ℚ → String)
    (person : PersonLayout) : String :=
  "    <text x=\"" ++ numToStr person.x ++ "\" y=\"" ++ numToStr person.y ++
    "\"\n                  text-anchor=\"middle\"\n                  class=\"family-tree-font\"\n                  font-size=\"" ++
    numToStr cfg.fontSize ++ "\"\n                  fill=\"" ++
    cfg.lineColor ++ "\">\n      "

/-- One person's `<text>` element of `generatePeople`. -/
def personElement (cfg : LayoutConfig) (numToStr : ℚ → String)
    (person : PersonLayout) : String :=
  personElementPrefix cfg numToStr person ++
    escapeXML person.member.namn ++ "\n    </text>"

/-- `SVGGenerator.generatePeople`. -/
def generatePeople (cfg : LayoutConfig) (numToStr : ℚ → String)
    (people : List PersonLayout) : String :=
  if people = [] then ""
  else
    "  <!-- Family members -->\n" ++
      joinSep "\n" (people.map (personElement cfg numToStr))

/-- `SVGGenerator.generateSVG`: the complete document. -/
def generateSVG (cfg : LayoutConfig) (numToStr : ℚ → String)
    (project : FamilyProject) (layout : LayoutResult) : String :=
  let width := layout.dimensions.width
  let height := layout.dimensions.height
  "<?xml version=\"1.0\" encoding=\"UTF-8\"?>\n<svg width=\"" ++
    numToStr width ++ "\" height=\"" ++ numToStr height ++
    "\" xmlns=\"http://www.w3.org/2000/svg\">\n  " ++
    generateDefs project ++ "\n  " ++
    generateBackground numToStr width height ++ "\n  " ++
    generateTitle numToStr project width ++ "\n  " ++
    generateConnectionsSVG cfg numToStr layout.connections ++ "\n  " ++
    generateMarriagesSVG cfg numToStr layout.marriages ++ "\n  " ++
    generatePeople cfg numToStr layout.people ++ "\n</svg>"

/-! ## SVGRenderingService (src/server/services/svg/SVGRenderingService.ts) -/

structure RenderMetadata where
  dimensions : Dimensions
  peopleCount : ℕ
  generationCount : ℕ
deriving DecidableEq

structure SVGRenderResult where
  svg : String
  metadata : RenderMetadata
deriving DecidableEq

/-- `buildLayoutConfig`: project font/theme settings, then the spacing
preset, then the landscape adjustment (`Math.floor` of the products with
0.8 and 1.2, exact for every preset value), finally spread-merged with the
caller overrides. -/
def buildLayoutConfig (project : FamilyProject)
    (overrides : Option LayoutOverrides) : LayoutOverrides :=
  let base : LayoutOverrides :=
    { fontSize := some
        (match project.settings.font.size with
          | some s => numOrDefault s.names 16
          | none => 16)
      fontFamily := some project.settings.font.family
      lineColor := some project.settings.theme.colors.lines
      lineWidth := some 1 }
  let base :=
    match project.settings.layout.spacing with
    | SpacingPreset.tight =>
      { base with
        generationSpacing := some 60
        personSpacing := some 80
        marriageSpacing := some 30 }
    | SpacingPreset.spacious =>
      { base with
        generationSpacing := some 100
        personSpacing := some 150
        marriageSpacing := some 50 }
    | SpacingPreset.comfortable => base
  let base :=
    match project.settings.orientation with
    | Orientation.landscape =>
      { base with
        generationSpacing :=
          some ((⌊(base.generationSpacing.getD 80) * (4 / 5 : ℚ)⌋ : ℤ) : ℚ)
        personSpacing :=
          some ((⌊(base.personSpacing.getD 120) * (6 / 5 : ℚ)⌋ : ℤ) : ℚ) }
    | Orientation.portrait => base
  match overrides with
  | some o => mergeOverrides base o
  | none => base

/-- `renderFamilyTree` (wall-clock `renderTime` omitted; the `try` wrapper
is vacuous for this total embedding). -/
def renderFamilyTree (project : FamilyProject)
    (overrides : Option LayoutOverrides) (numToStr : ℚ → String) :
    SVGRenderResult :=
  let layoutConfig := buildLayoutConfig project overrides
  let cfg := engineConfig layoutConfig
  let layout := generateLayout cfg project
  let svg := generateSVG cfg numToStr project layout
  { svg := svg
    metadata :=
      { dimensions := layout.dimensions
        peopleCount := project.members.length
        generationCount := layout.generations.length } }

/-- `validateProject`: the standalone structural validation of the
rendering service.  Error strings and their accumulation order follow the
source: main-person check, then the self-reference loop, then the broken-
reference loop. -/
def validateProject (project : FamilyProject) : List String :=
  (if (memberGet project.members project.mainPersonId).isSome then []
    else ["Main person not found in project members"]) ++
  (project.members.flatMap fun member =>
    (if member.id ∈ member.foraldrar then
      ["Member " ++ member.id ++ " cannot be their own parent"] else []) ++
    (if member.id ∈ member.barn then
      ["Member " ++ member.id ++ " cannot be their own child"] else [])) ++
  (project.members.flatMap fun member =>
    (member.foraldrar.flatMap fun parentId =>
      if (memberGet project.members parentId).isSome then []
      else ["Parent " ++ parentId ++ " referenced by " ++ member.id ++
        " does not exist"]) ++
    (member.barn.flatMap fun childId =>
      if (memberGet project.members childId).isSome then []
      else ["Child " ++ childId ++ " referenced by " ++ member.id ++
        " does not exist"]) ++
    (match member.partner with
      | some pid =>
        if pid ≠ "" ∧ (memberGet project.members pid).isNone then
          ["Partner " ++ pid ++ " referenced by " ++ member.id ++
            " does not exist"]
        else []
      | none => []))

/-! ## GET /:id/tree/svg route (src/server/routes/svg.ts) -/

/-- Response of the SVG route once a project was loaded: 400 with the
aggregated error list, or 200 with the rendered document. -/
inductive TreeSvgResponse where
  | badRequest (errors : List String)
  | okSvg (svg : String)
deriving DecidableEq

/-- The `GET /api/projects/:id/tree/svg` handler body after the project
lookup: validate, abort with the error list when non-empty, otherwise
render (no layout overrides are passed). -/
def handleGetTreeSvg (project : FamilyProject) (numToStr : ℚ → String) :
    TreeSvgResponse :=
  let validationErrors := validateProject project
  if validationErrors.length > 0 then
    TreeSvgResponse.badRequest validationErrors
  else
    TreeSvgResponse.okSvg (renderFamilyTree project none numToStr).svg

/-! ## Reference definitions taken from the specification's wording
(used to compare the source algorithms against the spec text) -/

/-- Spec wording for escaping: each reserved character replaced by its
escape sequence, all other characters kept. -/
def escapeChar (c : Char) : List Char :=
  if c = '&' then "&amp;".data
  else if c = '<' then "&lt;".data
  else if c = '>' then "&gt;".data
  else if c = '"' then "&quot;".data
  else if c = '\'' then "&#x27;".data
  else [c]

/-- The five escape sequences. -/
def entityList : List (List Char) :=
  ["&amp;".data, "&lt;".data, "&gt;".data, "&quot;".data, "&#x27;".data]

/-- Spec wording for the position calculator, one band: the cursor starts
at the fixed left margin; each anchor is `cursor + width / 2`; the cursor
advances by the label width plus the marriage gap exactly when the next
member of the band is this member's recorded partner, else plus the person
gap. -/
def specBandCursor (cfg : LayoutConfig) (yPos : ℚ) :
    List FamilyMember → ℚ → List PersonLayout
  | [], _ => []
  | m :: rest, cursor =>
    let w := estimateTextWidth m.namn
    let gap :=
      match rest with
      | next :: _ =>
        if m.partner = some next.id then cfg.marriageSpacing
        else cfg.personSpacing
      | [] => cfg.personSpacing
    { x := cursor + w / 2, y := yPos, member := m, textWidth := w } ::
      specBandCursor cfg yPos rest (cursor + w + gap)

/-- Spec reference positions for all bands (cursor starting at the fixed
left margin). -/
def specPositions (cfg : LayoutConfig) (generations : List GenerationGroup) :
    List PersonLayout :=
  generations.flatMap fun g =>
    specBandCursor cfg g.yPosition g.members cfg.marginLeft

/-- Whether the member's (truthy) recorded partner occurs anywhere in the
band — the condition the source actually uses for the marriage gap. -/
def spouseInBand (band : List FamilyMember) (m : FamilyMember) : Bool :=
  partnerTruthy m.partner ∧
    (band.find? (fun mm => some mm.id = m.partner)).isSome

/-- Amended cursor algorithm: the cursor starts at
`marginLeft + max 0 ((400 - totalWidth) / 2)` and the gap after a member is
the marriage gap exactly when that member's recorded partner occurs
anywhere in the band. -/
def amendedBandCursor (cfg : LayoutConfig) (band : List FamilyMember)
    (yPos : ℚ) : List FamilyMember → ℚ → List PersonLayout
  | [], _ => []
  | m :: rest, cursor =>
    let w := estimateTextWidth m.namn
    let gap :=
      if spouseInBand band m then cfg.marriageSpacing else cfg.personSpacing
    { x := cursor + w / 2, y := yPos, member := m, textWidth := w } ::
      amendedBandCursor cfg band yPos rest (cursor + w + gap)

/-- Amended reference positions for all bands. -/
def amendedPositions (cfg : LayoutConfig)
    (generations : List GenerationGroup) : List PersonLayout :=
  generations.flatMap fun g =>
    amendedBandCursor cfg g.members g.yPosition g.members
      (cfg.marginLeft +
        max 0 ((400 - calculateTotalWidthForGeneration cfg g.members) / 2))

/-- Spec wording for the band index: the distinct generation values in
ascending order. -/
def sortedGenerations (members : List FamilyMember) : List ℚ :=
  ((members.map fun m => m.generation).toFinset).sort (· ≤ ·)

/-- Spec wording: the zero-based position of a generation value among the
distinct generation values in ascending order. -/
def bandIndexOf (members : List FamilyMember) (g : ℚ) : ℕ :=
  (sortedGenerations members).indexOf g

/-! ## Concrete fixtures -/

/-- `DEFAULT_PROJECT_SETTINGS` restricted to the fields the renderer
reads. -/
def defaultProjectSettings : ProjectSettings where
  font :=
    { family := "Dancing Script"
      fallbacks := ["Lucida Handwriting", "Apple Chancery", "cursive", "serif"]
      size := some { title := 32, names := 16, relationships := 10 } }
  orientation := Orientation.portrait
  theme :=
    { name := "parchment"
      colors :=
        { background := "#f4f1e8", text := "#5a4a3a", lines := "#8b7355",
          accent := "#d4c4a8" }
      decorations :=
        { showBorder := true, showCornerDecorations := true,
          showShadows := true } }
  layout :=
    { algorithm := "family-groups-separated"
      spacing := SpacingPreset.comfortable
      showGenerationLabels := true
      showMarriageSymbols := true
      centerMainPerson := true }

/-- Fixture builder for members. -/
def mkMember (id namn : String) (generation : ℚ)
    (foraldrar barn : List String) (partner : Option String) : FamilyMember where
  id := id
  namn := namn
  kon := Gender.other
  generation := generation
  foraldrar := foraldrar
  barn := barn
  partner := partner
  status := PersonStatus.levande
  anteckningar := ""

/-- Fixture builder for projects. -/
def mkProject (members : List FamilyMember) (mainPersonId : String) :
    FamilyProject where
  id := "test-project"
  name := "Test"
  description := ""
  mainPersonId := mainPersonId
  members := members
  settings := defaultProjectSettings

/-- The two-partners-one-child scenario family of the spec (and of the
repository's unit tests). -/
def simpleFamily : FamilyProject :=
  mkProject
    [mkMember "john" "John" 0 [] ["child"] (some "jane"),
      mkMember "jane" "Jane" 0 [] ["child"] (some "john"),
      mkMember "child" "Child" 1 ["john", "jane"] [] none]
    "child"

/-- A project whose only member is their own partner. -/
def selfPartnerProject : FamilyProject :=
  mkProject [mkMember "x" "X" 0 [] [] (some "x")] "x"

/-- The spec's self-parent scenario record `{id:"x", parents:["x"]}`. -/
def selfParentProject : FamilyProject :=
  mkProject [mkMember "x" "X" 0 ["x"] [] none] "x"

/-- A single short-named member (band total width 16 < 400). -/
def singleMemberProject : FamilyProject :=
  mkProject [mkMember "solo" "ab" 0 [] [] none] "solo"

/-- One band [aa, cc, bb] where aa's partner bb is in the band but not the
next member: the source then still applies the marriage gap after aa. -/
def tripleBandProject : FamilyProject :=
  mkProject
    [mkMember "aa" "aa" 0 [] [] (some "bb"),
      mkMember "cc" "cc" 0 [] [] none,
      mkMember "bb" "bb" 0 [] [] (some "aa")]
    "aa"

/-- A project with no members at all. -/
def emptyProject : FamilyProject :=
  mkProject [] "nobody"

/-- Two disjoint symmetric partner pairs whose canonical pair keys collide:
`["a","b-c"].sort().join('-') = "a-b-c" = ["a-b","c"].sort().join('-')`. -/
def dashPairProject : FamilyProject :=
  mkProject
    [mkMember "a" "A" 0 [] [] (some "b-c"),
      mkMember "a-b" "AB" 0 [] [] (some "c"),
      mkMember "b-c" "BC" 0 [] [] (some "a"),
      mkMember "c" "C" 0 [] [] (some "a-b")]
    "a"


/-! ## Claim C2: validation gates the render -/

/-- C2: for every snapshot whose structural-validation error list is
non-empty, the SVG route aborts the render as a whole with the aggregated
error list and produces no document; a document is produced only when that
error list is empty. -/
theorem c2_validation_gates_render (project : FamilyProject)
    (numToStr : ℚ → String) :
    (validateProject project ≠ [] →
      handleGetTreeSvg project numToStr =
        TreeSvgResponse.badRequest (validateProject project)) ∧
    (∀ svg, handleGetTreeSvg project numToStr = TreeSvgResponse.okSvg svg →
      validateProject project = [] ∧
        svg = (renderFamilyTree project none numToStr).svg) := by
  unfold handleGetTreeSvg
  constructor
  · intro h
    have hpos : 0 < (validateProject project).length :=
      List.length_pos.mpr h
    simp [hpos]
  · intro svg h
    by_cases hlen : 0 < (validateProject project).length
    · simp [hlen] at h
    · simp [hlen] at h
      refine ⟨List.length_eq_zero.mp (Nat.eq_zero_of_not_pos hlen), h.symm⟩

/-- C2 witness: a concrete invalid snapshot (self-parent) is answered with
the aggregated error list and no document. -/
theorem c2_validation_gates_render_witness :
    handleGetTreeSvg selfParentProject (fun _ => "") =
      TreeSvgResponse.badRequest (validateProject selfParentProject) :=
  (c2_validation_gates_render selfParentProject (fun _ => "")).1 (by decide)

/-! ## Claim C9: canvas dimensions are clamped to the A4 minimum -/

/-- C9: for every snapshot the computed canvas dimensions satisfy
`width ≥ 595` and `height ≥ 842`: the bounding box expanded by margins and
title allowance is clamped up to the minimum page size. -/
theorem c9_dimensions_at_least_a4 (cfg : LayoutConfig)
    (personLayouts : List PersonLayout) :
    595 ≤ (calculateDimensions cfg personLayouts).width ∧
    842 ≤ (calculateDimensions cfg personLayouts).height := by
  cases personLayouts with
  | nil => exact ⟨le_refl _, le_refl _⟩
  | cons p ps => exact ⟨le_max_left _ _, le_max_left _ _⟩

/-! ## Claim C10: empty snapshot renders the exact A4 default -/

/-- C10: when the snapshot contains zero members, the layout completes and
the dimension calculator returns exactly the A4 default 595 × 842. -/
theorem c10_empty_snapshot_a4 (cfg : LayoutConfig) (project : FamilyProject)
    (h : project.members = []) :
    generateLayout cfg project =
      { people := []
        connections := []
        marriages := []
        dimensions := { width := 595, height := 842 }
        generations := [] } := by
  cases project with
  | mk id name description mainPersonId members settings =>
    subst h
    rfl

/-- C10 witness: the concrete empty project yields the A4 default. -/
theorem c10_empty_snapshot_a4_witness :
    generateLayout defaultLayoutConfig emptyProject =
      { people := []
        connections := []
        marriages := []
        dimensions := { width := 595, height := 842 }
        generations := [] } :=
  c10_empty_snapshot_a4 defaultLayoutConfig emptyProject rfl

/-! ## Claim C3: what the standalone validation collects -/

/-- C3 counterexample: a person whose partner is their own id yields no
error from the rendering service's standalone validation (the claimed
self-partner check does not exist there; only dangling partner references
are reported, and a self-reference is never dangling). -/
theorem c3_counterexample_self_partner_unreported :
    validateProject selfPartnerProject = [] := by decide

/-- C3 (amended): the standalone validation walks every person and reports,
all at once and without short-circuiting: a person being their own parent
or own child; every parent, child or (truthy) partner id absent from the
member map; and a missing focal person.  A self-referential partner id is
not reported.  The spec's scenario record `{id:"x", parents:["x"]}` yields
exactly the list naming `x` as its own parent. -/
theorem c3_validation_collects (p : FamilyProject) :
    ((memberGet p.members p.mainPersonId).isSome = false →
      "Main person not found in project members" ∈ validateProject p) ∧
    (∀ m ∈ p.members, m.id ∈ m.foraldrar →
      ("Member " ++ m.id ++ " cannot be their own parent") ∈
        validateProject p) ∧
    (∀ m ∈ p.members, m.id ∈ m.barn →
      ("Member " ++ m.id ++ " cannot be their own child") ∈
        validateProject p) ∧
    (∀ m ∈ p.members, ∀ parentId ∈ m.foraldrar,
      (memberGet p.members parentId).isSome = false →
      ("Parent " ++ parentId ++ " referenced by " ++ m.id ++
        " does not exist") ∈ validateProject p) ∧
    (∀ m ∈ p.members, ∀ childId ∈ m.barn,
      (memberGet p.members childId).isSome = false →
      ("Child " ++ childId ++ " referenced by " ++ m.id ++
        " does not exist") ∈ validateProject p) ∧
    (∀ m ∈ p.members, ∀ pid, m.partner = some pid → pid ≠ "" →
      (memberGet p.members pid).isSome = false →
      ("Partner " ++ pid ++ " referenced by " ++ m.id ++
        " does not exist") ∈ validateProject p) ∧
    validateProject selfParentProject =
      ["Member x cannot be their own parent"] := by
  refine ⟨?_, ?_, ?_, ?_, ?_, ?_, by decide⟩
  · intro h
    unfold validateProject
    simp [h]
  · intro m hm hself
    unfold validateProject
    refine List.mem_append.mpr (Or.inl (List.mem_append.mpr (Or.inr ?_)))
    refine List.mem_flatMap.mpr ⟨m, hm, ?_⟩
    simp [hself]
  · intro m hm hself
    unfold validateProject
    refine List.mem_append.mpr (Or.inl (List.mem_append.mpr (Or.inr ?_)))
    refine List.mem_flatMap.mpr ⟨m, hm, ?_⟩
    simp [hself]
  · intro m hm parentId hp hmiss
    unfold validateProject
    refine List.mem_append.mpr (Or.inr ?_)
    refine List.mem_flatMap.mpr ⟨m, hm, ?_⟩
    refine List.mem_append.mpr (Or.inl (List.mem_append.mpr (Or.inl ?_)))
    refine List.mem_flatMap.mpr ⟨parentId, hp, ?_⟩
    simp [hmiss]
  · intro m hm childId hc hmiss
    unfold validateProject
    refine List.mem_append.mpr (Or.inr ?_)
    refine List.mem_flatMap.mpr ⟨m, hm, ?_⟩
    refine List.mem_append.mpr (Or.inl (List.mem_append.mpr (Or.inr ?_)))
    refine List.mem_flatMap.mpr ⟨childId, hc, ?_⟩
    simp [hmiss]
  · intro m hm pid hpid hne hmiss
    unfold validateProject
    refine List.mem_append.mpr (Or.inr ?_)
    refine List.mem_flatMap.mpr ⟨m, hm, ?_⟩
    refine List.mem_append.mpr (Or.inr ?_)
    rw [hpid]
    rcases hopt : memberGet p.members pid with _ | v
    · simp [hne, hopt]
    · rw [hopt] at hmiss
      simp at hmiss

/-- C3 witness: applying the amended theorem at a dangling-parent snapshot.
-/
theorem c3_validation_collects_witness :
    ("Parent ghost referenced by solo does not exist") ∈
      validateProject (mkProject [mkMember "solo" "ab" 0 ["ghost"] [] none]
        "solo") :=
  (c3_validation_collects _).2.2.2.1 (mkMember "solo" "ab" 0 ["ghost"] [] none)
    (by decide) "ghost" (by decide) (by decide)

/-! ## Helper lemmas about `placeBand` and `calculatePersonPositions` -/

theorem placeBand_mem {cfg : LayoutConfig} {band l : List FamilyMember}
    {yPos x : ℚ} {pl : PersonLayout}
    (h : pl ∈ (placeBand cfg band yPos l x).1) :
    pl.y = yPos ∧ pl.member ∈ l ∧
      pl.textWidth = estimateTextWidth pl.member.namn ∧
      pl.x = pl.x := by
  induction l generalizing x with
  | nil => simp [placeBand] at h
  | cons m rest ih =>
    rw [placeBand] at h
    rcases List.mem_cons.mp h with h | h
    · subst h
      exact ⟨rfl, List.mem_cons_self _ _, rfl, rfl⟩
    · obtain ⟨hy, hmem, htw, hx⟩ := ih h
      exact ⟨hy, List.mem_cons_of_mem _ hmem, htw, hx⟩

theorem placeBand_map_textWidth (cfg : LayoutConfig)
    (band : List FamilyMember) (yPos : ℚ) (l : List FamilyMember) (x : ℚ) :
    ((placeBand cfg band yPos l x).1.map fun p => p.textWidth) =
      l.map fun m => estimateTextWidth m.namn := by
  induction l generalizing x with
  | nil => simp [placeBand]
  | cons m rest ih => simp [placeBand, ih]

theorem calcPositions_mem {cfg : LayoutConfig}
    {gens : List GenerationGroup} {fgs : List FamilyGroup}
    {pl : PersonLayout}
    (h : pl ∈ (calculatePersonPositions cfg gens fgs).1) :
    ∃ g ∈ gens,
      pl ∈ (placeBand cfg g.members g.yPosition g.members
        (cfg.marginLeft +
          max 0 ((400 - calculateTotalWidthForGeneration cfg g.members) / 2))).1 := by
  unfold calculatePersonPositions at h
  simp only [List.map_map, List.mem_flatten, List.mem_map] at h
  obtain ⟨l, ⟨g, hg, hl⟩, hpl⟩ := h
  refine ⟨g, hg, ?_⟩
  rw [← hl] at hpl
  exact hpl

/-! ## Claim C6: estimated label width -/

/-- C6 counterexample: rendering the same single-member band with
configured font size 16 and then 32 produces the same label width 16 both
times, refuting the claim that label widths scale with the configured font
size. -/
theorem c6_counterexample_font_size_ignored :
    ((calculatePersonPositions defaultLayoutConfig
        (groupByGeneration defaultLayoutConfig singleMemberProject.members)
        []).1.map fun p => p.textWidth) = [16] ∧
    ((calculatePersonPositions { defaultLayoutConfig with fontSize := 32 }
        (groupByGeneration { defaultLayoutConfig with fontSize := 32 }
          singleMemberProject.members)
        []).1.map fun p => p.textWidth) = [16] := by
  constructor <;>
    · simp [calculatePersonPositions, groupByGeneration, generationKeys,
        singleMemberProject, mkProject, mkMember, placeBand,
        estimateTextWidth, calculateTotalWidthForGeneration,
        List.insertionSort, List.orderedInsert, defaultLayoutConfig,
        partnerTruthy]
      norm_num [show ("ab" : String).length = 2 from rfl]

/-- C6 (amended): every placement's estimated label width equals the
display name's character count times the fixed average glyph width 8,
independent of the configured font size (the source never consults the
configuration in `estimateTextWidth`). -/
theorem c6_label_width (cfg : LayoutConfig) (gens : List GenerationGroup)
    (fgs : List FamilyGroup) :
    (∀ pl ∈ (calculatePersonPositions cfg gens fgs).1,
      pl.textWidth = (pl.member.namn.length : ℚ) * 8) ∧
    (∀ (cfg' : LayoutConfig) (fgs' : List FamilyGroup),
      ((calculatePersonPositions cfg gens fgs).1.map fun p => p.textWidth) =
        ((calculatePersonPositions cfg' gens fgs').1.map
          fun p => p.textWidth)) := by
  constructor
  · intro pl hpl
    obtain ⟨g, _, hmem⟩ := calcPositions_mem hpl
    exact (placeBand_mem hmem).2.2.1
  · intro cfg' fgs'
    have key : ∀ (c : LayoutConfig) (f : List FamilyGroup),
        ((calculatePersonPositions c gens f).1.map fun p => p.textWidth) =
          gens.flatMap fun g => g.members.map fun m =>
            estimateTextWidth m.namn := by
      intro c f
      unfold calculatePersonPositions
      rw [List.map_flatten, List.flatMap_def]
      simp only [List.map_map]
      congr 1
      apply List.map_congr_left
      intro g _
      exact placeBand_map_textWidth c g.members g.yPosition g.members _
    rw [key, key]

/-- C6 witness: the amended theorem applied to the concrete single-member
band. -/
theorem c6_label_width_witness :
    ((⟨250, 190, mkMember "solo" "ab" 0 [] [] none, 16⟩ : PersonLayout)).textWidth =
      ((mkMember "solo" "ab" 0 [] [] none).namn.length : ℚ) * 8 := by
  have hlist :
      (calculatePersonPositions defaultLayoutConfig
        (groupByGeneration defaultLayoutConfig singleMemberProject.members)
        []).1 =
      [⟨250, 190, mkMember "solo" "ab" 0 [] [] none, 16⟩] := by
    simp [calculatePersonPositions, groupByGeneration, generationKeys,
      singleMemberProject, mkProject, placeBand, estimateTextWidth,
      calculateTotalWidthForGeneration, List.insertionSort,
      List.orderedInsert, defaultLayoutConfig, partnerTruthy, mkMember]
    norm_num [show ("ab" : String).length = 2 from rfl, max_def]
  exact (c6_label_width defaultLayoutConfig
      (groupByGeneration defaultLayoutConfig singleMemberProject.members)
      []).1 _ (by rw [hlist]; exact List.mem_singleton.mpr rfl)

/-! ## Claim C4: horizontal cursor algorithm -/

theorem placeBand_eq_amended (cfg : LayoutConfig)
    (band : List FamilyMember) (yPos : ℚ) (l : List FamilyMember) (x : ℚ) :
    (placeBand cfg band yPos l x).1 = amendedBandCursor cfg band yPos l x := by
  induction l generalizing x with
  | nil => rfl
  | cons m rest ih =>
    rw [placeBand, amendedBandCursor]
    by_cases h : partnerTruthy m.partner ∧
        (band.find? (fun mm => some mm.id = m.partner)).isSome
    · have hb : spouseInBand band m = true := by
        simp only [spouseInBand, decide_eq_true_eq]
        exact h
      simp only [if_pos h, hb, if_true]
      rw [ih]
      have harg : x + estimateTextWidth m.namn + cfg.personSpacing -
          (cfg.personSpacing - cfg.marriageSpacing) =
          x + estimateTextWidth m.namn + cfg.marriageSpacing := by ring
      rw [harg]
    · have hb : spouseInBand band m = false := by
        simp only [spouseInBand, decide_eq_false_iff_not]
        exact h
      simp only [if_neg h, hb, Bool.false_eq_true, if_false]
      rw [ih]

/-- C4 counterexample: for a band holding one member with a two-character
name, the source places the anchor at x = 250 (the cursor is pre-centered
against a 400px base width), while the spec's reference cursor (starting at
the fixed left margin 50) would place it at x = 58. -/
theorem c4_counterexample_precentering :
    ((calculatePersonPositions defaultLayoutConfig
        (groupByGeneration defaultLayoutConfig singleMemberProject.members)
        []).1.map fun p => p.x) = [250] ∧
    ((specPositions defaultLayoutConfig
        (groupByGeneration defaultLayoutConfig singleMemberProject.members)).map
        fun p => p.x) = [58] ∧
    ((calculatePersonPositions defaultLayoutConfig
        (groupByGeneration defaultLayoutConfig tripleBandProject.members)
        []).1.map fun p => p.x) = [114, 170, 306] ∧
    ((specPositions defaultLayoutConfig
        (groupByGeneration defaultLayoutConfig tripleBandProject.members)).map
        fun p => p.x) = [58, 194, 330] := by
  refine ⟨?_, ?_, ?_, ?_⟩
  · simp [calculatePersonPositions, groupByGeneration, generationKeys,
      singleMemberProject, mkProject, mkMember, placeBand, estimateTextWidth,
      calculateTotalWidthForGeneration, List.insertionSort,
      List.orderedInsert, defaultLayoutConfig, partnerTruthy]
    norm_num [show ("ab" : String).length = 2 from rfl, max_def]
  · simp [specPositions, specBandCursor, groupByGeneration, generationKeys,
      singleMemberProject, mkProject, mkMember, estimateTextWidth,
      List.insertionSort, List.orderedInsert, defaultLayoutConfig]
    norm_num [show ("ab" : String).length = 2 from rfl]
  · simp [calculatePersonPositions, groupByGeneration, generationKeys,
      tripleBandProject, mkProject, mkMember, placeBand, estimateTextWidth,
      calculateTotalWidthForGeneration, List.insertionSort,
      List.orderedInsert, defaultLayoutConfig, partnerTruthy, List.find?]
    norm_num [show ("aa" : String).length = 2 from rfl,
      show ("bb" : String).length = 2 from rfl,
      show ("cc" : String).length = 2 from rfl, max_def]
  · simp [specPositions, specBandCursor, groupByGeneration, generationKeys,
      tripleBandProject, mkProject, mkMember, estimateTextWidth,
      List.insertionSort, List.orderedInsert, defaultLayoutConfig]
    norm_num [show ("aa" : String).length = 2 from rfl,
      show ("bb" : String).length = 2 from rfl,
      show ("cc" : String).length = 2 from rfl]

/-- C4 (amended): within each generation band the anchors follow the cursor
algorithm in which the cursor starts at
`marginLeft + max 0 ((400 - bandTotalWidth) / 2)` — centering the band
against an assumed 400px base width rather than at the bare left margin —
each anchor is `cursor + labelWidth / 2`, and the cursor then advances by
the label width plus the marriage gap exactly when the member's recorded
partner occurs anywhere in the same band (not only when it is the next
member), otherwise plus the person gap. -/
theorem c4_positions_amended (cfg : LayoutConfig)
    (gens : List GenerationGroup) (fgs : List FamilyGroup) :
    (calculatePersonPositions cfg gens fgs).1 = amendedPositions cfg gens := by
  unfold calculatePersonPositions amendedPositions
  rw [List.flatMap_def]
  simp only [List.map_map]
  congr 1
  apply List.map_congr_left
  intro g _
  exact placeBand_eq_amended cfg g.members g.yPosition g.members _

/-! ## Claim C5: band y coordinates -/

theorem foldl_insertKey_nodup (l : List FamilyMember) (acc : List ℚ)
    (h : acc.Nodup) :
    (l.foldl (fun ks m => if m.generation ∈ ks then ks else ks ++ [m.generation])
      acc).Nodup := by
  induction l generalizing acc with
  | nil => exact h
  | cons m rest ih =>
    rw [List.foldl_cons]
    apply ih
    by_cases hmem : m.generation ∈ acc
    · simpa [hmem] using h
    · simp [hmem, List.nodup_append, h]

theorem generationKeys_nodup (members : List FamilyMember) :
    (generationKeys members).Nodup :=
  foldl_insertKey_nodup members [] List.nodup_nil

theorem mem_foldl_insertKey (l : List FamilyMember) (acc : List ℚ) (x : ℚ) :
    x ∈ l.foldl
        (fun ks m => if m.generation ∈ ks then ks else ks ++ [m.generation])
        acc ↔
      x ∈ acc ∨ ∃ m ∈ l, m.generation = x := by
  induction l generalizing acc with
  | nil => simp
  | cons m rest ih =>
    rw [List.foldl_cons, ih]
    by_cases hmem : m.generation ∈ acc
    · rw [if_pos hmem]
      constructor
      · rintro (h | ⟨m', hm', hx⟩)
        · exact Or.inl h
        · exact Or.inr ⟨m', List.mem_cons_of_mem _ hm', hx⟩
      · rintro (h | ⟨m', hm', hx⟩)
        · exact Or.inl h
        · rcases List.mem_cons.mp hm' with h' | h'
          · refine Or.inl ?_
            rw [← hx, h']
            exact hmem
          · exact Or.inr ⟨m', h', hx⟩
    · rw [if_neg hmem]
      constructor
      · rintro (h | ⟨m', hm', hx⟩)
        · rcases List.mem_append.mp h with h2 | h2
          · exact Or.inl h2
          · exact Or.inr ⟨m, List.mem_cons_self _ _,
              (List.mem_singleton.mp h2).symm⟩
        · exact Or.inr ⟨m', List.mem_cons_of_mem _ hm', hx⟩
      · rintro (h | ⟨m', hm', hx⟩)
        · exact Or.inl (List.mem_append.mpr (Or.inl h))
        · rcases List.mem_cons.mp hm' with h' | h'
          · subst h'
            exact Or.inl (List.mem_append.mpr
              (Or.inr (List.mem_singleton.mpr hx.symm)))
          · exact Or.inr ⟨m', h', hx⟩

theorem mem_generationKeys (members : List FamilyMember) (x : ℚ) :
    x ∈ generationKeys members ↔ ∃ m ∈ members, m.generation = x := by
  rw [generationKeys, mem_foldl_insertKey]
  simp

/-- The sorted distinct generation-key list of the source equals the spec's
ascending sort of the set of generation values. -/
theorem sortedKeys_eq (members : List FamilyMember) :
    List.insertionSort (· ≤ ·) (generationKeys members) =
      sortedGenerations members := by
  apply List.eq_of_perm_of_sorted (r := (· ≤ · : ℚ → ℚ → Prop))
  · refine (List.perm_insertionSort _ _).trans ?_
    apply List.perm_of_nodup_nodup_toFinset_eq (generationKeys_nodup members)
      (Finset.sort_nodup _ _)
    ext q
    simp [mem_generationKeys, Finset.mem_sort, sortedGenerations]
  · exact List.sorted_insertionSort _ _
  · exact Finset.sort_sorted _ _

/-- C5: every placement's y coordinate equals
`titleHeight + marginTop + bandIndex * generationSpacing` where the band
index is the zero-based position of the person's generation value among the
distinct generation values in ascending order; and the band ordering with
its y coordinates depends only on the set of generation values, not on the
iteration order of the input. -/
theorem c5_band_y_coordinates (cfg : LayoutConfig)
    (members : List FamilyMember) (fgs : List FamilyGroup) :
    (∀ pl ∈ (calculatePersonPositions cfg (groupByGeneration cfg members)
        fgs).1,
      pl.y = cfg.titleHeight + cfg.marginTop +
        (bandIndexOf members pl.member.generation : ℚ) *
          cfg.generationSpacing) ∧
    (∀ members' : List FamilyMember,
      (members.map fun m => m.generation).toFinset =
        (members'.map fun m => m.generation).toFinset →
      ((groupByGeneration cfg members).map fun g => (g.generation, g.yPosition)) =
        ((groupByGeneration cfg members').map
          fun g => (g.generation, g.yPosition))) := by
  constructor
  · intro pl hpl
    obtain ⟨g, hg, hmem⟩ := calcPositions_mem hpl
    have hy : pl.y = g.yPosition := (placeBand_mem hmem).1
    have hmm : pl.member ∈ g.members := (placeBand_mem hmem).2.1
    rw [groupByGeneration] at hg
    simp only [List.mem_map] at hg
    obtain ⟨⟨i, q⟩, hin, hgeq⟩ := hg
    obtain ⟨hilt, hq⟩ := List.mem_enum hin
    have hgen : pl.member.generation = q := by
      have := hmm
      rw [← hgeq] at this
      simp only [List.mem_filter, decide_eq_true_eq] at this
      exact this.2
    have hypos : g.yPosition =
        cfg.titleHeight + cfg.marginTop + (i : ℚ) * cfg.generationSpacing := by
      rw [← hgeq]
    have hidx : bandIndexOf members q = i := by
      unfold bandIndexOf
      rw [← sortedKeys_eq]
      set sorted := List.insertionSort (· ≤ ·) (generationKeys members) with hs
      have hnodup : sorted.Nodup :=
        (List.perm_insertionSort _ _).nodup_iff.mpr (generationKeys_nodup members)
      have hqmem : q ∈ sorted := by
        rw [hq]
        exact List.getElem_mem hilt
      have hlt : List.indexOf q sorted < sorted.length :=
        List.indexOf_lt_length.mpr hqmem
      have hget : sorted.get ⟨List.indexOf q sorted, hlt⟩ = q :=
        List.indexOf_get hlt
      have hget2 : sorted.get ⟨i, hilt⟩ = q := by
        rw [List.get_eq_getElem]
        exact hq.symm
      have := (hnodup.get_inj_iff).mp (hget.trans hget2.symm)
      exact congrArg Fin.val this
    rw [hy, hypos, hgen, hidx]
  · intro members' hfin
    have hsorted : sortedGenerations members = sortedGenerations members' := by
      unfold sortedGenerations
      rw [hfin]
    unfold groupByGeneration
    rw [sortedKeys_eq, sortedKeys_eq, hsorted]
    simp only [List.map_map]
    rfl

/-- Shared evaluation of the single-member fixture's placements. -/
theorem singleMemberPositions_eval :
    (calculatePersonPositions defaultLayoutConfig
      (groupByGeneration defaultLayoutConfig singleMemberProject.members)
      []).1 =
    [{ x := 250, y := 190, member := mkMember "solo" "ab" 0 [] [] none,
       textWidth := 16 }] := by
  simp [calculatePersonPositions, groupByGeneration, generationKeys,
    singleMemberProject, mkProject, placeBand, estimateTextWidth,
    calculateTotalWidthForGeneration, List.insertionSort,
    List.orderedInsert, defaultLayoutConfig, partnerTruthy, mkMember]
  norm_num [show ("ab" : String).length = 2 from rfl, max_def]

/-- C5 witness: the theorem applied to the concrete single-member snapshot
(band index 0, y = 90 + 100 + 0 · 80 = 190). -/
theorem c5_band_y_coordinates_witness :
    ({ x := 250, y := 190, member := mkMember "solo" "ab" 0 [] [] none,
       textWidth := 16 } : PersonLayout).y =
      defaultLayoutConfig.titleHeight + defaultLayoutConfig.marginTop +
        (bandIndexOf singleMemberProject.members
          (mkMember "solo" "ab" 0 [] [] none).generation : ℚ) *
          defaultLayoutConfig.generationSpacing :=
  (c5_band_y_coordinates defaultLayoutConfig singleMemberProject.members
    []).1 _ (by rw [singleMemberPositions_eval]; exact List.mem_singleton.mpr rfl)

/-! ## Claim C7: parent-child connection routing -/

theorem length_filterMap_eq_countP {α β : Type} (l : List α)
    (f : α → Option β) :
    (l.filterMap f).length = l.countP fun x => (f x).isSome := by
  induction l with
  | nil => rfl
  | cons a t ih =>
    rw [List.filterMap_cons, List.countP_cons]
    cases h : f a <;> simp [h, ih]

/-- C7: the router emits exactly one parent-child connection per placed
recorded parent of each placed member; every emitted connection joins a
parent layout to a child layout with endpoints 10px inside the rows, so the
L-shaped path's horizontal segment `(y1 + y2) / 2` lies at the exact
vertical midpoint of the parent and child rows; and the spec's scenario —
two partnered people at generation 0 with one shared child at
generation 1 — yields exactly 2 generation bands, 2 parent-child
connections and 1 marriage connection. -/
theorem c7_parent_child_connections (personLayouts : List PersonLayout)
    (members : List FamilyMember) :
    ((generateConnections personLayouts members).length =
      (members.map fun m =>
        if (layoutMapGet personLayouts m.id).isSome then
          m.foraldrar.countP fun pid =>
            (layoutMapGet personLayouts pid).isSome
        else 0).sum) ∧
    (∀ conn ∈ generateConnections personLayouts members,
      ∃ m ∈ members, ∃ parentId ∈ m.foraldrar, ∃ cL pL : PersonLayout,
        layoutMapGet personLayouts m.id = some cL ∧
        layoutMapGet personLayouts parentId = some pL ∧
        conn = { x1 := pL.x, y1 := pL.y + 10, x2 := cL.x, y2 := cL.y - 10,
                 type := ConnectionType.parentChild } ∧
        connectionMidY conn = (pL.y + cL.y) / 2) ∧
    ((generateLayout defaultLayoutConfig simpleFamily).generations.length = 2 ∧
      (generateLayout defaultLayoutConfig simpleFamily).connections.length = 2 ∧
      (generateLayout defaultLayoutConfig simpleFamily).marriages.length = 1) := by
  refine ⟨?_, ?_, by decide, by decide, by decide⟩
  · unfold generateConnections
    rw [List.length_flatMap]
    congr 1
    apply List.map_congr_left
    intro m _
    simp only [Function.comp]
    cases h : layoutMapGet personLayouts m.id with
    | none => simp [h]
    | some cL =>
      dsimp only
      rw [length_filterMap_eq_countP]
      rw [if_pos (by simp : (some cL).isSome = true)]
      apply List.countP_congr
      intro pid _
      cases h2 : layoutMapGet personLayouts pid <;> simp [h2]
  · intro conn hconn
    unfold generateConnections at hconn
    rw [List.mem_flatMap] at hconn
    obtain ⟨m, hm, hconn⟩ := hconn
    cases h : layoutMapGet personLayouts m.id with
    | none => rw [h] at hconn; simp at hconn
    | some cL =>
      rw [h] at hconn
      rw [List.mem_filterMap] at hconn
      obtain ⟨parentId, hpid, hsome⟩ := hconn
      cases h2 : layoutMapGet personLayouts parentId with
      | none => rw [h2] at hsome; simp at hsome
      | some pL =>
        rw [h2] at hsome
        simp only [Option.some_inj] at hsome
        refine ⟨m, hm, parentId, hpid, cL, pL, h, h2, hsome.symm, ?_⟩
        rw [← hsome]
        unfold connectionMidY
        simp only
        ring

/-- C7 witness: the per-connection geometry applied to a concrete placed
parent-child pair. -/
theorem c7_parent_child_connections_witness :
    ∃ m ∈ [mkMember "p" "P" 0 [] ["c"] none,
        mkMember "c" "C" 1 ["p"] [] none],
      ∃ parentId ∈ m.foraldrar, ∃ cL pL : PersonLayout,
        layoutMapGet
          [{ x := 0, y := 0, member := mkMember "p" "P" 0 [] ["c"] none,
             textWidth := 8 },
           { x := 4, y := 80, member := mkMember "c" "C" 1 ["p"] [] none,
             textWidth := 8 }] m.id = some cL ∧
        layoutMapGet
          [{ x := 0, y := 0, member := mkMember "p" "P" 0 [] ["c"] none,
             textWidth := 8 },
           { x := 4, y := 80, member := mkMember "c" "C" 1 ["p"] [] none,
             textWidth := 8 }] parentId = some pL ∧
        ({ x1 := 0, y1 := 10, x2 := 4, y2 := 70,
           type := ConnectionType.parentChild } : ConnectionLine) =
          { x1 := pL.x, y1 := pL.y + 10, x2 := cL.x, y2 := cL.y - 10,
            type := ConnectionType.parentChild } ∧
        connectionMidY
          { x1 := 0, y1 := 10, x2 := 4, y2 := 70,
            type := ConnectionType.parentChild } = (pL.y + cL.y) / 2 := by
  have h := (c7_parent_child_connections
    [{ x := 0, y := 0, member := mkMember "p" "P" 0 [] ["c"] none,
       textWidth := 8 },
     { x := 4, y := 80, member := mkMember "c" "C" 1 ["p"] [] none,
       textWidth := 8 }]
    [mkMember "p" "P" 0 [] ["c"] none,
     mkMember "c" "C" 1 ["p"] [] none]).2.1
    { x1 := 0, y1 := 10, x2 := 4, y2 := 70,
      type := ConnectionType.parentChild }
  apply h
  unfold generateConnections layoutMapGet
  simp [mkMember, List.find?]
  norm_num

/-! ## Claim C1: markup escaping of user-supplied names -/

theorem replaceChar_data (c : Char) (rep : String) (s : String) :
    (replaceChar c rep s).data =
      s.data.flatMap fun d => if d = c then rep.data else [d] := rfl

theorem escape_chain_head (c : Char) :
    (((((if c = '&' then "&amp;".data else [c]).flatMap
        fun d => if d = '<' then "&lt;".data else [d]).flatMap
        fun d => if d = '>' then "&gt;".data else [d]).flatMap
        fun d => if d = '"' then "&quot;".data else [d]).flatMap
        fun d => if d = '\'' then "&#x27;".data else [d]) = escapeChar c := by
  by_cases h1 : c = '&'
  · subst h1; decide
  by_cases h2 : c = '<'
  · subst h2; decide
  by_cases h3 : c = '>'
  · subst h3; decide
  by_cases h4 : c = '"'
  · subst h4; decide
  by_cases h5 : c = '\''
  · subst h5; decide
  simp [escapeChar, h1, h2, h3, h4, h5]

theorem escape_chain (l : List Char) :
    (((((l.flatMap fun d => if d = '&' then "&amp;".data else [d]).flatMap
        fun d => if d = '<' then "&lt;".data else [d]).flatMap
        fun d => if d = '>' then "&gt;".data else [d]).flatMap
        fun d => if d = '"' then "&quot;".data else [d]).flatMap
        fun d => if d = '\'' then "&#x27;".data else [d]) =
      l.flatMap escapeChar := by
  induction l with
  | nil => rfl
  | cons c t ih =>
    simp only [List.flatMap_cons, List.flatMap_append]
    rw [ih, escape_chain_head]

/-- The chained five global replacements of `escapeXML` equal a single
character-by-character replacement. -/
theorem escapeXML_data (s : String) :
    (escapeXML s).data = s.data.flatMap escapeChar := by
  unfold escapeXML
  rw [replaceChar_data, replaceChar_data, replaceChar_data, replaceChar_data,
    replaceChar_data]
  exact escape_chain s.data

theorem escapeChar_not_reserved (d c : Char) (h : c ∈ escapeChar d) :
    c ≠ '<' ∧ c ≠ '>' ∧ c ≠ '"' ∧ c ≠ '\'' := by
  unfold escapeChar at h
  by_cases h1 : d = '&'
  · subst h1; simp only [if_pos rfl] at h; fin_cases h <;> decide
  rw [if_neg h1] at h
  by_cases h2 : d = '<'
  · subst h2; simp only [if_pos rfl] at h; fin_cases h <;> decide
  rw [if_neg h2] at h
  by_cases h3 : d = '>'
  · subst h3; simp only [if_pos rfl] at h; fin_cases h <;> decide
  rw [if_neg h3] at h
  by_cases h4 : d = '"'
  · subst h4; simp only [if_pos rfl] at h; fin_cases h <;> decide
  rw [if_neg h4] at h
  by_cases h5 : d = '\''
  · subst h5; simp only [if_pos rfl] at h; fin_cases h <;> decide
  rw [if_neg h5] at h
  rcases List.mem_singleton.mp h with rfl
  exact ⟨h2, h3, h4, h5⟩

theorem suffix_append_cases {α : Type} {t a b : List α} (h : t <:+ a ++ b) :
    t <:+ b ∨ ∃ a', a' <:+ a ∧ t = a' ++ b := by
  induction a with
  | nil => left; simpa using h
  | cons x a ih =>
    rw [List.cons_append] at h
    rcases List.suffix_cons_iff.mp h with h | h
    · right
      exact ⟨x :: a, List.suffix_refl _, by simpa using h⟩
    · rcases ih h with h | ⟨a', ha', rfl⟩
      · exact Or.inl h
      · exact Or.inr ⟨a', ha'.trans (List.suffix_cons _ _), rfl⟩

theorem amp_suffix_of_escapeChar (c : Char) (tl : List Char)
    (h : ('&' :: tl) <:+ escapeChar c) :
    '&' :: tl = escapeChar c ∧ escapeChar c ∈ entityList := by
  unfold escapeChar at *
  by_cases h1 : c = '&'
  · subst h1
    simp only [if_pos rfl] at h ⊢
    have h' : ('&' :: tl) ∈ List.tails "&amp;".data := (List.mem_tails _ _).mpr h
    rw [show "&amp;".data = ['&', 'a', 'm', 'p', ';'] from rfl] at h'
    simp only [List.tails_cons, List.tails, List.mem_cons,
      List.mem_singleton] at h'
    rcases h' with h' | h' | h' | h' | h' | h' <;> simp_all
    decide
  rw [if_neg h1] at h ⊢
  by_cases h2 : c = '<'
  · subst h2
    simp only [if_pos rfl] at h ⊢
    have h' : ('&' :: tl) ∈ List.tails "&lt;".data := (List.mem_tails _ _).mpr h
    rw [show "&lt;".data = ['&', 'l', 't', ';'] from rfl] at h'
    simp only [List.tails_cons, List.tails, List.mem_cons,
      List.mem_singleton] at h'
    rcases h' with h' | h' | h' | h' | h' <;> simp_all
    decide
  rw [if_neg h2] at h ⊢
  by_cases h3 : c = '>'
  · subst h3
    simp only [if_pos rfl] at h ⊢
    have h' : ('&' :: tl) ∈ List.tails "&gt;".data := (List.mem_tails _ _).mpr h
    rw [show "&gt;".data = ['&', 'g', 't', ';'] from rfl] at h'
    simp only [List.tails_cons, List.tails, List.mem_cons,
      List.mem_singleton] at h'
    rcases h' with h' | h' | h' | h' | h' <;> simp_all
    decide
  rw [if_neg h3] at h ⊢
  by_cases h4 : c = '"'
  · subst h4
    simp only [if_pos rfl] at h ⊢
    have h' : ('&' :: tl) ∈ List.tails "&quot;".data := (List.mem_tails _ _).mpr h
    rw [show "&quot;".data = ['&', 'q', 'u', 'o', 't', ';'] from rfl] at h'
    simp only [List.tails_cons, List.tails, List.mem_cons,
      List.mem_singleton] at h'
    rcases h' with h' | h' | h' | h' | h' | h' | h' <;> simp_all
    decide
  rw [if_neg h4] at h ⊢
  by_cases h5 : c = '\''
  · subst h5
    simp only [if_pos rfl] at h ⊢
    have h' : ('&' :: tl) ∈ List.tails "&#x27;".data := (List.mem_tails _ _).mpr h
    rw [show "&#x27;".data = ['&', '#', 'x', '2', '7', ';'] from rfl] at h'
    simp only [List.tails_cons, List.tails, List.mem_cons,
      List.mem_singleton] at h'
    rcases h' with h' | h' | h' | h' | h' | h' | h' <;> simp_all
    decide
  rw [if_neg h5] at h ⊢
  rcases List.suffix_cons_iff.mp h with h | h
  · exfalso
    apply h1
    exact ((List.cons.injEq _ _ _ _).mp h).1.symm
  · simp at h

theorem amp_entity_suffix (l : List Char) :
    ∀ t tl, t <:+ l.flatMap escapeChar → t = '&' :: tl →
      ∃ e ∈ entityList, e <+: t := by
  induction l with
  | nil =>
    intro t tl ht he
    rw [List.flatMap_nil] at ht
    rw [List.suffix_nil.mp ht] at he
    exact absurd he (by simp)
  | cons c rest ih =>
    intro t tl ht he
    rw [List.flatMap_cons] at ht
    rcases suffix_append_cases ht with h | ⟨a', ha', rfl⟩
    · exact ih t tl h he
    · cases a' with
      | nil =>
        rw [List.nil_append] at he ⊢
        exact ih _ tl (List.suffix_refl _) he
      | cons y ytl =>
        have hy : y = '&' := by
          have := congrArg (fun l => l.head?) he
          simpa using this
        subst hy
        obtain ⟨heq, hent⟩ := amp_suffix_of_escapeChar c ytl ha'
        refine ⟨escapeChar c, hent, ?_⟩
        rw [← heq]
        exact List.prefix_append _ _

theorem inf_app_left {α : Type} {l t : List α} (h : l <:+: t)
    (pre : List α) : l <:+: pre ++ t := by
  obtain ⟨s, u, hsu⟩ := h
  exact ⟨pre ++ s, u, by rw [← hsu]; simp [List.append_assoc]⟩

theorem inf_app_right {α : Type} {l t : List α} (h : l <:+: t)
    (post : List α) : l <:+: t ++ post := by
  obtain ⟨s, u, hsu⟩ := h
  exact ⟨s, u ++ post, by rw [← hsu]; simp [List.append_assoc]⟩

theorem mem_joinSep_inf (sep : String) (l : List String) (s : String)
    (h : s ∈ l) : s.data <:+: (joinSep sep l).data := by
  induction l with
  | nil => simp at h
  | cons x rest ih =>
    rcases List.mem_cons.mp h with rfl | h
    · cases rest with
      | nil => exact List.infix_refl _
      | cons y t =>
        have hj : joinSep sep (s :: y :: t) = s ++ sep ++ joinSep sep (y :: t) :=
          rfl
        rw [hj]
        simp only [String.data_append]
        exact inf_app_right (inf_app_right (List.infix_refl _) _) _
    · cases rest with
      | nil => simp at h
      | cons y t =>
        have hj : joinSep sep (x :: y :: t) = x ++ sep ++ joinSep sep (y :: t) :=
          rfl
        rw [hj]
        simp only [String.data_append]
        rw [List.append_assoc]
        exact inf_app_left (inf_app_left (ih h) _) _

theorem escaped_name_in_generatePeople (cfg : LayoutConfig)
    (numToStr : ℚ → String) (people : List PersonLayout)
    (person : PersonLayout) (h : person ∈ people) :
    (escapeXML person.member.namn).data <:+:
      (generatePeople cfg numToStr people).data := by
  unfold generatePeople
  rw [if_neg (List.ne_nil_of_mem h)]
  have h1 : (escapeXML person.member.namn).data <:+:
      (personElement cfg numToStr person).data := by
    unfold personElement
    simp only [String.data_append]
    exact ⟨(personElementPrefix cfg numToStr person).data,
      ("\n    </text>" : String).data, by simp [List.append_assoc]⟩
  have h2 : (personElement cfg numToStr person).data <:+:
      (joinSep "\n" (people.map (personElement cfg numToStr))).data :=
    mem_joinSep_inf _ _ _ (List.mem_map_of_mem _ h)
  have h3 := h1.trans h2
  rw [String.data_append]
  exact inf_app_left h3 _

/-- C1: for every placed person, the serialized document embeds the display
name with every occurrence of the five reserved markup characters replaced
by its escape sequence (the chained replacement equals a single
character-by-character replacement); the escaped text contains no raw
`<`, `>`, `"` or `'` at all; and every `&` in it starts one of the five
escape sequences. -/
theorem c1_name_escaping (cfg : LayoutConfig) (numToStr : ℚ → String)
    (project : FamilyProject) (layout : LayoutResult)
    (person : PersonLayout) (h : person ∈ layout.people) :
    ((escapeXML person.member.namn).data <:+:
      (generateSVG cfg numToStr project layout).data) ∧
    ((escapeXML person.member.namn).data =
      person.member.namn.data.flatMap escapeChar) ∧
    (∀ c ∈ (escapeXML person.member.namn).data,
      c ≠ '<' ∧ c ≠ '>' ∧ c ≠ '"' ∧ c ≠ '\'') ∧
    (∀ t tl, t <:+ (escapeXML person.member.namn).data → t = '&' :: tl →
      ∃ e ∈ entityList, e <+: t) := by
  refine ⟨?_, escapeXML_data _, ?_, ?_⟩
  · have hp := escaped_name_in_generatePeople cfg numToStr layout.people
      person h
    unfold generateSVG
    simp only [String.data_append]
    exact inf_app_right (inf_app_left hp _) _
  · intro c hc
    rw [escapeXML_data] at hc
    obtain ⟨d, _, hd⟩ := List.mem_flatMap.mp hc
    exact escapeChar_not_reserved d c hd
  · intro t tl ht he
    rw [escapeXML_data] at ht
    exact amp_entity_suffix _ t tl ht he

/-- C1 witness: the theorem applied to a one-person layout whose name
contains all five reserved characters. -/
theorem c1_name_escaping_witness :
    ((escapeXML (mkMember "p" "a&<>\"'" 0 [] [] none).namn).data <:+:
      (generateSVG defaultLayoutConfig (fun _ => "") emptyProject
        ⟨[⟨0, 0, mkMember "p" "a&<>\"'" 0 [] [] none, 0⟩], [], [],
          ⟨595, 842⟩, []⟩).data) ∧
    ((escapeXML (mkMember "p" "a&<>\"'" 0 [] [] none).namn).data =
      (mkMember "p" "a&<>\"'" 0 [] [] none).namn.data.flatMap escapeChar) ∧
    (∀ c ∈ (escapeXML (mkMember "p" "a&<>\"'" 0 [] [] none).namn).data,
      c ≠ '<' ∧ c ≠ '>' ∧ c ≠ '"' ∧ c ≠ '\'') ∧
    (∀ t tl,
      t <:+ (escapeXML (mkMember "p" "a&<>\"'" 0 [] [] none).namn).data →
      t = '&' :: tl → ∃ e ∈ entityList, e <+: t) := by
  have h := c1_name_escaping defaultLayoutConfig (fun _ => "") emptyProject
    ⟨[⟨0, 0, mkMember "p" "a&<>\"'" 0 [] [] none, 0⟩], [], [],
      ⟨595, 842⟩, []⟩
    ⟨0, 0, mkMember "p" "a&<>\"'" 0 [] [] none, 0⟩
    (List.mem_singleton.mpr rfl)
  exact h

/-! ## Claim C8: marriage deduplication -/

theorem char_eq_of_toNat_eq {x y : Char} (h : x.toNat = y.toNat) : x = y := by
  apply Char.ext
  unfold Char.toNat at h
  exact UInt32.eq_of_val_eq (Fin.eq_of_val_eq h)

theorem lexLt_cons (x y : Char) (xs ys : List Char) :
    lexLt (x :: xs) (y :: ys) =
      if x.toNat < y.toNat then true
      else if y.toNat < x.toNat then false
      else lexLt xs ys := rfl

theorem lexLt_asymm : ∀ (a b : List Char),
    lexLt a b = true → lexLt b a = false := by
  intro a
  induction a with
  | nil =>
    intro b h
    cases b with
    | nil => simp [lexLt] at h
    | cons y ys => simp [lexLt]
  | cons x xs ih =>
    intro b h
    cases b with
    | nil => simp [lexLt] at h
    | cons y ys =>
      rw [lexLt_cons] at h
      rw [lexLt_cons]
      by_cases h1 : x.toNat < y.toNat
      · rw [if_neg (by omega), if_pos h1]
      · by_cases h2 : y.toNat < x.toNat
        · rw [if_neg h1, if_pos h2] at h
          exact absurd h (by simp)
        · rw [if_neg h1, if_neg h2] at h
          rw [if_neg h2, if_neg h1]
          exact ih ys h

theorem lexLt_total_eq : ∀ (a b : List Char),
    lexLt a b = false → lexLt b a = false → a = b := by
  intro a
  induction a with
  | nil =>
    intro b hab hba
    cases b with
    | nil => rfl
    | cons y ys => simp [lexLt] at hab
  | cons x xs ih =>
    intro b hab hba
    cases b with
    | nil => simp [lexLt] at hba
    | cons y ys =>
      rw [lexLt_cons] at hab hba
      by_cases h1 : x.toNat < y.toNat
      · rw [if_pos h1] at hab
        exact absurd hab (by simp)
      · by_cases h2 : y.toNat < x.toNat
        · rw [if_pos h2] at hba
          exact absurd hba (by simp)
        · rw [if_neg h1, if_neg h2] at hab
          rw [if_neg h2, if_neg h1] at hba
          have hx : x = y := char_eq_of_toNat_eq (by omega)
          rw [hx, ih ys hab hba]

theorem pairKey_comm (a b : String) : pairKey a b = pairKey b a := by
  unfold pairKey
  by_cases h1 : lexLt b.data a.data = true
  · rw [if_pos h1, if_neg (by rw [lexLt_asymm _ _ h1]; simp)]
  · by_cases h2 : lexLt a.data b.data = true
    · rw [if_neg h1, if_pos h2]
    · have : a.data = b.data :=
        lexLt_total_eq _ _ (Bool.not_eq_true _ ▸ h2 : lexLt a.data b.data = false)
          (Bool.not_eq_true _ ▸ h1)
      rw [String.ext this]

theorem append_dash_inj : ∀ (a c b d : List Char), '-' ∉ a → '-' ∉ c →
    a ++ '-' :: b = c ++ '-' :: d → a = c ∧ b = d := by
  intro a
  induction a with
  | nil =>
    intro c b d _ hc h
    cases c with
    | nil => simpa using h
    | cons z zs =>
      rw [List.nil_append, List.cons_append] at h
      have hz := ((List.cons.injEq _ _ _ _).mp h).1
      exact absurd (hz ▸ List.mem_cons_self z zs) hc
  | cons x xs ih =>
    intro c b d ha hc h
    cases c with
    | nil =>
      rw [List.cons_append, List.nil_append] at h
      have hx := ((List.cons.injEq _ _ _ _).mp h).1
      exact absurd (hx ▸ List.mem_cons_self x xs) ha
    | cons z zs =>
      rw [List.cons_append, List.cons_append] at h
      obtain ⟨hxz, htail⟩ := (List.cons.injEq _ _ _ _).mp h
      obtain ⟨h1, h2⟩ := ih zs b d (fun hm => ha (List.mem_cons_of_mem _ hm))
        (fun hm => hc (List.mem_cons_of_mem _ hm)) htail
      exact ⟨by rw [hxz, h1], h2⟩

theorem pairKey_data (a b : String) :
    (a ++ "-" ++ b).data = a.data ++ '-' :: b.data := by
  simp [String.data_append]

theorem pairKey_inj (a b u v : String)
    (hadf : '-' ∉ a.data) (hbdf : '-' ∉ b.data)
    (hudf : '-' ∉ u.data) (hvdf : '-' ∉ v.data)
    (h : pairKey a b = pairKey u v) :
    (a = u ∧ b = v) ∨ (a = v ∧ b = u) := by
  unfold pairKey at h
  have key : ∀ (s₁ s₂ t₁ t₂ : String), '-' ∉ s₁.data → '-' ∉ t₁.data →
      s₁ ++ "-" ++ s₂ = t₁ ++ "-" ++ t₂ → s₁ = t₁ ∧ s₂ = t₂ := by
    intro s₁ s₂ t₁ t₂ hs ht heq
    have := congrArg String.data heq
    rw [pairKey_data, pairKey_data] at this
    obtain ⟨h1, h2⟩ := append_dash_inj _ _ _ _ hs ht this
    exact ⟨String.ext h1, String.ext h2⟩
  by_cases h1 : lexLt b.data a.data = true <;>
    by_cases h2 : lexLt v.data u.data = true
  · rw [if_pos h1, if_pos h2] at h
    obtain ⟨e1, e2⟩ := key _ _ _ _ hbdf hvdf h
    exact Or.inl ⟨e2, e1⟩
  · rw [if_pos h1, if_neg h2] at h
    obtain ⟨e1, e2⟩ := key _ _ _ _ hbdf hudf h
    exact Or.inr ⟨e2, e1⟩
  · rw [if_neg h1, if_pos h2] at h
    obtain ⟨e1, e2⟩ := key _ _ _ _ hadf hvdf h
    exact Or.inr ⟨e1, e2⟩
  · rw [if_neg h1, if_neg h2] at h
    obtain ⟨e1, e2⟩ := key _ _ _ _ hadf hudf h
    exact Or.inl ⟨e1, e2⟩

theorem layoutMapGet_id {personLayouts : List PersonLayout} {id : String}
    {p : PersonLayout} (h : layoutMapGet personLayouts id = some p) :
    p.member.id = id := by
  unfold layoutMapGet at h
  have := List.find?_some h
  exact of_decide_eq_true this

/-- Whether a marriage record joins the two given member ids (in either
order). -/
def marBetween (aId bId : String) (mar : MarriageConnection) : Bool :=
  decide ((mar.person1.member.id = aId ∧ mar.person2.member.id = bId) ∨
    (mar.person1.member.id = bId ∧ mar.person2.member.id = aId))

theorem generateMarriagesAux_symbol (personLayouts : List PersonLayout) :
    ∀ (l : List FamilyMember) (processed : List String),
      ∀ mar ∈ generateMarriagesAux personLayouts l processed,
        mar.symbolX = (mar.person1.x + mar.person2.x) / 2 ∧
        mar.symbolY = (mar.person1.y + mar.person2.y) / 2 := by
  intro l
  induction l with
  | nil => intro processed mar h; simp [generateMarriagesAux] at h
  | cons m rest ih =>
    intro processed mar h
    rw [generateMarriagesAux] at h
    cases hpart : m.partner with
    | none =>
      rw [hpart] at h
      exact ih processed mar h
    | some pid =>
      rw [hpart] at h
      dsimp only at h
      by_cases hemp : pid = ""
      · rw [if_pos hemp] at h
        exact ih processed mar h
      · rw [if_neg hemp] at h
        by_cases hkey : pairKey m.id pid ∈ processed
        · rw [if_pos hkey] at h
          exact ih processed mar h
        · rw [if_neg hkey] at h
          cases h1 : layoutMapGet personLayouts m.id with
          | none =>
            rw [h1] at h
            cases h2 : layoutMapGet personLayouts pid with
            | none => rw [h2] at h; exact ih _ mar h
            | some p2 => rw [h2] at h; exact ih _ mar h
          | some p1 =>
            rw [h1] at h
            cases h2 : layoutMapGet personLayouts pid with
            | none => rw [h2] at h; exact ih _ mar h
            | some p2 =>
              rw [h2] at h
              rcases List.mem_cons.mp h with rfl | h
              · exact ⟨rfl, rfl⟩
              · exact ih _ mar h

theorem countAux_zero (personLayouts : List PersonLayout) (aId bId : String) :
    ∀ (l : List FamilyMember) (processed : List String),
      pairKey aId bId ∈ processed →
      (generateMarriagesAux personLayouts l processed).countP
        (marBetween aId bId) = 0 := by
  intro l
  induction l with
  | nil => intro processed _; rfl
  | cons m rest ih =>
    intro processed hK
    rw [generateMarriagesAux]
    cases hpart : m.partner with
    | none => exact ih processed hK
    | some pid =>
      dsimp only
      by_cases hemp : pid = ""
      · rw [if_pos hemp]
        exact ih processed hK
      · rw [if_neg hemp]
        by_cases hkey : pairKey m.id pid ∈ processed
        · rw [if_pos hkey]
          exact ih processed hK
        · rw [if_neg hkey]
          cases h1 : layoutMapGet personLayouts m.id with
          | none =>
            cases h2 : layoutMapGet personLayouts pid with
            | none => exact ih _ (List.mem_cons_of_mem _ hK)
            | some p2 => exact ih _ (List.mem_cons_of_mem _ hK)
          | some p1 =>
            cases h2 : layoutMapGet personLayouts pid with
            | none => exact ih _ (List.mem_cons_of_mem _ hK)
            | some p2 =>
              dsimp only
              rw [List.countP_cons]
              have hfalse : marBetween aId bId
                  { person1 := p1, person2 := p2,
                    symbolX := (p1.x + p2.x) / 2,
                    symbolY := (p1.y + p2.y) / 2 } = false := by
                rw [marBetween, decide_eq_false_iff_not]
                rintro (⟨e1, e2⟩ | ⟨e1, e2⟩)
                · apply hkey
                  rw [layoutMapGet_id h1] at e1
                  rw [layoutMapGet_id h2] at e2
                  rw [e1, e2]
                  exact hK
                · apply hkey
                  rw [layoutMapGet_id h1] at e1
                  rw [layoutMapGet_id h2] at e2
                  rw [e1, e2, pairKey_comm]
                  exact hK
              rw [hfalse]
              simp only [Bool.false_eq_true, if_false, Nat.add_zero]
              exact ih _ (List.mem_cons_of_mem _ hK)

theorem countAux_one (personLayouts : List PersonLayout) (aId bId : String) :
    ∀ (l : List FamilyMember) (processed : List String),
      pairKey aId bId ∉ processed →
      (∃ m ∈ l, ∃ pid, m.partner = some pid ∧ pid ≠ "" ∧
        pairKey m.id pid = pairKey aId bId) →
      (∀ m ∈ l, ∀ pid, m.partner = some pid → pid ≠ "" →
        pairKey m.id pid = pairKey aId bId →
        ((m.id = aId ∧ pid = bId) ∨ (m.id = bId ∧ pid = aId))) →
      (∀ m ∈ l, ∀ pid, m.partner = some pid → pid ≠ "" →
        pairKey m.id pid = pairKey aId bId →
        (layoutMapGet personLayouts m.id).isSome = true ∧
          (layoutMapGet personLayouts pid).isSome = true) →
      (generateMarriagesAux personLayouts l processed).countP
        (marBetween aId bId) = 1 := by
  intro l
  induction l with
  | nil =>
    intro processed _ hex _ _
    simp at hex
  | cons m rest ih =>
    intro processed hK hex huniq hplace
    have hexRest : (∀ pid, m.partner = some pid → pid = "" ∨
        pairKey m.id pid ≠ pairKey aId bId) →
        ∃ m' ∈ rest, ∃ pid, m'.partner = some pid ∧ pid ≠ "" ∧
          pairKey m'.id pid = pairKey aId bId := by
      intro hnot
      obtain ⟨m', hm', pid', h1', h2', h3'⟩ := hex
      rcases List.mem_cons.mp hm' with rfl | hm'
      · rcases hnot pid' h1' with h | h
        · exact absurd h h2'
        · exact absurd h3' h
      · exact ⟨m', hm', pid', h1', h2', h3'⟩
    have huniqRest : ∀ m' ∈ rest, ∀ pid, m'.partner = some pid → pid ≠ "" →
        pairKey m'.id pid = pairKey aId bId →
        ((m'.id = aId ∧ pid = bId) ∨ (m'.id = bId ∧ pid = aId)) :=
      fun m' hm' => huniq m' (List.mem_cons_of_mem _ hm')
    have hplaceRest : ∀ m' ∈ rest, ∀ pid, m'.partner = some pid → pid ≠ "" →
        pairKey m'.id pid = pairKey aId bId →
        (layoutMapGet personLayouts m'.id).isSome = true ∧
          (layoutMapGet personLayouts pid).isSome = true :=
      fun m' hm' => hplace m' (List.mem_cons_of_mem _ hm')
    rw [generateMarriagesAux]
    cases hpart : m.partner with
    | none =>
      refine ih processed hK (hexRest ?_) huniqRest hplaceRest
      intro pid hpid
      rw [hpart] at hpid
      exact absurd hpid (by simp)
    | some pid =>
      dsimp only
      by_cases hemp : pid = ""
      · rw [if_pos hemp]
        refine ih processed hK (hexRest ?_) huniqRest hplaceRest
        intro pid' hpid'
        rw [hpart] at hpid'
        rw [Option.some_inj.mp hpid'] at hemp
        exact Or.inl hemp
      · rw [if_neg hemp]
        by_cases hKm : pairKey m.id pid = pairKey aId bId
        · -- this member triggers the pair
          rw [if_neg (by rw [hKm]; exact hK)]
          obtain ⟨hs1, hs2⟩ := hplace m (List.mem_cons_self _ _) pid hpart
            hemp hKm
          obtain ⟨p1, h1⟩ := Option.isSome_iff_exists.mp hs1
          obtain ⟨p2, h2⟩ := Option.isSome_iff_exists.mp hs2
          rw [h1, h2]
          dsimp only
          rw [List.countP_cons]
          have htrue : marBetween aId bId
              { person1 := p1, person2 := p2,
                symbolX := (p1.x + p2.x) / 2,
                symbolY := (p1.y + p2.y) / 2 } = true := by
            rw [marBetween, decide_eq_true_eq]
            rcases huniq m (List.mem_cons_self _ _) pid hpart hemp hKm with
              ⟨e1, e2⟩ | ⟨e1, e2⟩
            · exact Or.inl ⟨by rw [layoutMapGet_id h1, e1],
                by rw [layoutMapGet_id h2, e2]⟩
            · exact Or.inr ⟨by rw [layoutMapGet_id h1, e1],
                by rw [layoutMapGet_id h2, e2]⟩
          rw [htrue]
          simp only [if_true]
          rw [countAux_zero personLayouts aId bId rest _
            (by rw [← hKm]; exact List.mem_cons_self _ _)]
        · -- an unrelated pair key
          by_cases hkey : pairKey m.id pid ∈ processed
          · rw [if_pos hkey]
            refine ih processed hK (hexRest ?_) huniqRest hplaceRest
            intro pid' hpid'
            rw [hpart] at hpid'
            rw [← Option.some_inj.mp hpid']
            exact Or.inr hKm
          · rw [if_neg hkey]
            have hKcons : pairKey aId bId ∉ pairKey m.id pid :: processed := by
              intro hmem
              rcases List.mem_cons.mp hmem with heq | hmem
              · exact hKm heq.symm
              · exact hK hmem
            have hexR := hexRest (by
              intro pid' hpid'
              rw [hpart] at hpid'
              rw [← Option.some_inj.mp hpid']
              exact Or.inr hKm)
            cases h1 : layoutMapGet personLayouts m.id with
            | none =>
              cases h2 : layoutMapGet personLayouts pid with
              | none => exact ih _ hKcons hexR huniqRest hplaceRest
              | some p2 => exact ih _ hKcons hexR huniqRest hplaceRest
            | some p1 =>
              cases h2 : layoutMapGet personLayouts pid with
              | none => exact ih _ hKcons hexR huniqRest hplaceRest
              | some p2 =>
                dsimp only
                rw [List.countP_cons]
                have hfalse : marBetween aId bId
                    { person1 := p1, person2 := p2,
                      symbolX := (p1.x + p2.x) / 2,
                      symbolY := (p1.y + p2.y) / 2 } = false := by
                  rw [marBetween, decide_eq_false_iff_not]
                  rintro (⟨e1, e2⟩ | ⟨e1, e2⟩)
                  · apply hKm
                    rw [layoutMapGet_id h1] at e1
                    rw [layoutMapGet_id h2] at e2
                    rw [e1, e2]
                  · apply hKm
                    rw [layoutMapGet_id h1] at e1
                    rw [layoutMapGet_id h2] at e2
                    rw [e1, e2, pairKey_comm]
                rw [hfalse]
                simp only [Bool.false_eq_true, if_false, Nat.add_zero]
                exact ih _ hKcons hexR huniqRest hplaceRest

/-- C8 counterexample: in `dashPairProject` the partner relation is
symmetric, every partner id names a member and every member is placed, yet
only one marriage connection is emitted for the two disjoint partner pairs
{a, b-c} and {a-b, c}: their canonical keys both serialize to "a-b-c", so
the second pair is dropped — zero marriages between "a-b" and "c". -/
theorem c8_counterexample_key_collision :
    (∀ m ∈ dashPairProject.members, ∀ m' ∈ dashPairProject.members,
      m.partner = some m'.id → m'.partner = some m.id) ∧
    (∀ m ∈ dashPairProject.members, ∃ m' ∈ dashPairProject.members,
      m.partner = some m'.id) ∧
    (∀ m ∈ dashPairProject.members,
      (layoutMapGet (generateLayout defaultLayoutConfig dashPairProject).people
        m.id).isSome = true) ∧
    (generateLayout defaultLayoutConfig dashPairProject).marriages.length = 1 ∧
    (generateLayout defaultLayoutConfig dashPairProject).marriages.countP
      (marBetween "a-b" "c") = 0 := by
  exact ⟨by decide, by decide, by decide, by decide, by decide⟩

/-- C8 (amended): provided member ids are non-empty and contain no `-` (the
canonical `[id1,id2].sort().join('-')` key is then injective on unordered
pairs — ids elsewhere validated to `[a-z][a-z0-9_]*` satisfy this), for
every snapshot with a symmetric partner relation in which both members of
each partner pair are placed, exactly one marriage connection is emitted
per unordered partner pair, regardless of which side is visited first, and
every emitted union marker sits at the midpoint of the segment between the
two partners' anchors. -/
theorem c8_marriage_dedup (personLayouts : List PersonLayout)
    (members : List FamilyMember)
    (hsym : ∀ m ∈ members, ∀ pid, m.partner = some pid →
      ∃ m' ∈ members, m'.id = pid ∧ m'.partner = some m.id)
    (hplaced : ∀ m ∈ members,
      (layoutMapGet personLayouts m.id).isSome = true)
    (hids : ∀ m ∈ members, m.id ≠ "" ∧ '-' ∉ m.id.data)
    (a b : FamilyMember) (ha : a ∈ members) (hb : b ∈ members)
    (hab : a.partner = some b.id) :
    (generateMarriages personLayouts members).countP
      (marBetween a.id b.id) = 1 ∧
    (∀ mar ∈ generateMarriages personLayouts members,
      mar.symbolX = (mar.person1.x + mar.person2.x) / 2 ∧
      mar.symbolY = (mar.person1.y + mar.person2.y) / 2) := by
  constructor
  · unfold generateMarriages
    apply countAux_one personLayouts a.id b.id members []
    · simp
    · exact ⟨a, ha, b.id, hab, (hids b hb).1, rfl⟩
    · intro m hm pid hpid hne hK
      obtain ⟨m', hm', hid', _⟩ := hsym m hm pid hpid
      exact pairKey_inj m.id pid a.id b.id (hids m hm).2
        (by rw [← hid']; exact (hids m' hm').2)
        (hids a ha).2 (hids b hb).2 hK
    · intro m hm pid hpid hne hK
      obtain ⟨m', hm', hid', _⟩ := hsym m hm pid hpid
      refine ⟨hplaced m hm, ?_⟩
      rw [← hid']
      exact hplaced m' hm'
  · intro mar hmar
    exact generateMarriagesAux_symbol personLayouts members [] mar hmar

/-- C8 witness: applying the amended theorem to the john/jane pair of the
simple-family snapshot: exactly one marriage connection. -/
theorem c8_marriage_dedup_witness :
    (generateMarriages (generateLayout defaultLayoutConfig simpleFamily).people
      simpleFamily.members).countP (marBetween "john" "jane") = 1 := by
  have hbdd : ∀ m ∈ simpleFamily.members, ∀ m' ∈ simpleFamily.members,
      m.partner = some m'.id → m'.partner = some m.id := by decide
  have hcov : ∀ m ∈ simpleFamily.members, m.partner = none ∨
      ∃ m' ∈ simpleFamily.members, m.partner = some m'.id := by decide
  have h := c8_marriage_dedup
    (generateLayout defaultLayoutConfig simpleFamily).people
    simpleFamily.members
    (by
      intro m hm pid hpid
      rcases hcov m hm with h | ⟨m', hm', h⟩
      · rw [h] at hpid
        exact absurd hpid (by simp)
      · rw [h] at hpid
        exact ⟨m', hm', Option.some_inj.mp hpid, hbdd m hm m' hm' h⟩)
    (by decide)
    (by decide)
    (mkMember "john" "John" 0 [] ["child"] (some "jane"))
    (mkMember "jane" "Jane" 0 [] ["child"] (some "john"))
    (by decide) (by decide) (by decide)
  exact h.1

end Herold
